import Mathlib

/-!
Shallow embedding of the LSP client core of `src/lsp_client.rs`
(`llm-context-loader`): the length-prefixed JSON-RPC wire framing
(`send_message`, the frame-reading part of `read_response`), the request
correlation loop (`read_response`, `send_request`), the id counter, the
session lifecycle (`initialize`, `shutdown`, `Drop`), and the readiness
poller (`wait_for_ready`).

Modelling conventions:
* machine integers are `Nat` (the `u64` request counter wraps with an
  explicit `% 2 ^ 64`, matching `AtomicU64::fetch_add`);
* bytes on the wire are `Nat` values below 256;
* JSON values (`serde_json::Value`) are the inductive `Json` below, with
  numbers restricted to naturals (every number this client produces or
  inspects — `id`, `percentage` — is a `u64`);
* blocking reads are modelled on an explicit byte list: end of list is
  end-of-stream, where `read_line` yields `Ok(0)` and an empty line;
* loops take a fuel argument; a result of `none` means the loop was still
  running after `fuel` iterations (so `∀ fuel, f fuel x = none` exhibits
  divergence), while `some r` is the returned value.
-/

namespace LspClient

/-- Model of `serde_json::Value`. Object fields keep insertion order and
are looked up by first match; numbers are modelled as naturals. -/
inductive Json where
  | null
  | bool (b : Bool)
  | num (n : Nat)
  | str (s : List Char)
  | arr (elems : List Json)
  | obj (fields : List (List Char × Json))

/-- Lookup of a key in an object's field list (first match). -/
def assocGet (key : List Char) : List (List Char × Json) → Option Json
  | [] => none
  | kv :: rest => if kv.1 = key then some kv.2 else assocGet key rest

/-- `Value::get(key)`: field lookup on objects, `None` on anything else. -/
def Json.get : Json → List Char → Option Json
  | .obj fields, key => assocGet key fields
  | _, _ => none

/-- `Value::as_u64()`: the number when it is an integer fitting in `u64`. -/
def Json.asU64 : Json → Option Nat
  | .num n => if n < 2 ^ 64 then some n else none
  | _ => none

/-! ### Decimal rendering (the `Display` format of unsigned integers) -/

/-- The ASCII digit for `d < 10`. -/
def digitChar (d : Nat) : Char := Char.ofNat (48 + d)

/-- Little-endian base-10 digits, fuel-driven so that it computes by
kernel reduction (`n` itself always suffices as fuel). -/
def decDigitsRev : Nat → Nat → List Nat
  | 0, _ => []
  | _ + 1, 0 => []
  | fuel + 1, n + 1 => (n + 1) % 10 :: decDigitsRev fuel ((n + 1) / 10)

/-- Decimal digits of `n`, most significant first (`format!` on a `u64`). -/
def natToDecChars (n : Nat) : List Char :=
  if n = 0 then ['0'] else ((decDigitsRev n n).reverse).map digitChar

/-! ### String escaping (`serde_json::to_string` escape table) -/

/-- Lowercase hex digit for `d < 16`. -/
def hexChar (d : Nat) : Char :=
  if d < 10 then Char.ofNat (48 + d) else Char.ofNat (87 + d)

/-- How `serde_json` renders one character inside a JSON string: `"` and
`\` get a backslash escape, control characters get their short escape or
a `\u00XX` escape, everything else is passed through. -/
def escapeChar (c : Char) : List Char :=
  if c = '"' then ['\\', '"']
  else if c = '\\' then ['\\', '\\']
  else if c.toNat < 32 then
    if c.toNat = 8 then ['\\', 'b']
    else if c.toNat = 9 then ['\\', 't']
    else if c.toNat = 10 then ['\\', 'n']
    else if c.toNat = 12 then ['\\', 'f']
    else if c.toNat = 13 then ['\\', 'r']
    else ['\\', 'u', '0', '0', hexChar (c.toNat / 16), hexChar (c.toNat % 16)]
  else [c]

def escapeString : List Char → List Char
  | [] => []
  | c :: cs => escapeChar c ++ escapeString cs

/-- The `{` character (written by code point to keep braces out of
character literals). -/
def lbrace : Char := Char.ofNat 123

/-- The `}` character. -/
def rbrace : Char := Char.ofNat 125

/-! ### `serde_json::to_string`: compact serialization -/

mutual

/-- `serde_json::to_string` (compact form: no added whitespace). -/
def Json.serialize : Json → List Char
  | .null => 'n' :: 'u' :: 'l' :: 'l' :: []
  | .bool true => 't' :: 'r' :: 'u' :: 'e' :: []
  | .bool false => 'f' :: 'a' :: 'l' :: 's' :: 'e' :: []
  | .num n => natToDecChars n
  | .str s => '"' :: (escapeString s ++ ['"'])
  | .arr elems => '[' :: (serElems elems ++ [']'])
  | .obj fields => lbrace :: (serFields fields ++ [rbrace])

/-- Comma-separated serialization of array elements. -/
def serElems : List Json → List Char
  | [] => []
  | [j] => Json.serialize j
  | j :: rest => Json.serialize j ++ ',' :: serElems rest

/-- Comma-separated serialization of object fields (`"key":value`). -/
def serFields : List (List Char × Json) → List Char
  | [] => []
  | [kv] => '"' :: (escapeString kv.1 ++ '"' :: ':' :: Json.serialize kv.2)
  | kv :: rest =>
    ('"' :: (escapeString kv.1 ++ '"' :: ':' :: Json.serialize kv.2))
      ++ ',' :: serFields rest

end

/-! ### UTF-8 (`String::as_bytes` / `str::len` are byte based) -/

/-- UTF-8 encoding of one scalar value. -/
def utf8EncodeChar (c : Char) : List Nat :=
  let v := c.toNat
  if v < 128 then [v]
  else if v < 2048 then [192 + v / 64, 128 + v % 64]
  else if v < 65536 then [224 + v / 4096, 128 + v / 64 % 64, 128 + v % 64]
  else [240 + v / 262144, 128 + v / 4096 % 64, 128 + v / 64 % 64, 128 + v % 64]

/-- UTF-8 encoding of a character sequence. -/
def utf8Encode : List Char → List Nat
  | [] => []
  | c :: cs => utf8EncodeChar c ++ utf8Encode cs

/-- Decode one UTF-8 scalar value from the front of a byte list,
rejecting stray continuation bytes, overlong forms, surrogates and
out-of-range values. -/
def utf8DecodeOne : List Nat → Option (Char × List Nat)
  | [] => none
  | b :: rest =>
    if b < 128 then some (Char.ofNat b, rest)
    else if b < 192 then none
    else if b < 224 then
      match rest with
      | b1 :: r =>
        if 128 ≤ b1 ∧ b1 < 192 then
          let v := (b - 192) * 64 + (b1 - 128)
          if 128 ≤ v then some (Char.ofNat v, r) else none
        else none
      | _ => none
    else if b < 240 then
      match rest with
      | b1 :: b2 :: r =>
        if (128 ≤ b1 ∧ b1 < 192) ∧ (128 ≤ b2 ∧ b2 < 192) then
          let v := (b - 224) * 4096 + (b1 - 128) * 64 + (b2 - 128)
          if 2048 ≤ v ∧ ¬(55296 ≤ v ∧ v < 57344) then some (Char.ofNat v, r)
          else none
        else none
      | _ => none
    else if b < 248 then
      match rest with
      | b1 :: b2 :: b3 :: r =>
        if (128 ≤ b1 ∧ b1 < 192) ∧ (128 ≤ b2 ∧ b2 < 192) ∧ (128 ≤ b3 ∧ b3 < 192) then
          let v := (b - 240) * 262144 + (b1 - 128) * 4096
                     + (b2 - 128) * 64 + (b3 - 128)
          if 65536 ≤ v ∧ v < 1114112 then some (Char.ofNat v, r) else none
        else none
      | _ => none
    else none

/-- Fuel-driven UTF-8 decoding of a whole byte list. -/
def utf8DecodeAux : Nat → List Nat → Option (List Char)
  | _, [] => some []
  | 0, _ => none
  | fuel + 1, bs =>
    match utf8DecodeOne bs with
    | none => none
    | some (c, rest) =>
      match utf8DecodeAux fuel rest with
      | none => none
      | some cs => some (c :: cs)

/-- UTF-8 decoding of a whole byte list (each step consumes at least one
byte, so `bs.length` fuel always suffices). -/
def utf8Decode (bs : List Nat) : Option (List Char) :=
  utf8DecodeAux bs.length bs

/-! ### JSON parsing (`serde_json::from_slice`), character level.

Restricted to the `Json` model above: numbers are nonnegative integers
(no minus sign, fraction or exponent), and a `\uXXXX` escape must denote
a scalar value (no surrogate-pair decoding). -/

/-- JSON interword whitespace (space, tab, line feed, carriage return). -/
def skipWs : List Char → List Char
  | [] => []
  | c :: rest =>
    if c = ' ' ∨ c.toNat = 9 ∨ c.toNat = 10 ∨ c.toNat = 13 then skipWs rest
    else c :: rest

/-- Value of an ASCII hex digit. -/
def hexVal (c : Char) : Option Nat :=
  if 48 ≤ c.toNat ∧ c.toNat ≤ 57 then some (c.toNat - 48)
  else if 97 ≤ c.toNat ∧ c.toNat ≤ 102 then some (c.toNat - 87)
  else if 65 ≤ c.toNat ∧ c.toNat ≤ 70 then some (c.toNat - 55)
  else none

/-- Prepend an unescaped character to a string-body parse result. -/
def consStr (c : Char) (o : Option (List Char × List Char)) :
    Option (List Char × List Char) :=
  match o with
  | some (s, r2) => some (c :: s, r2)
  | none => none

/-- Parse the body of a JSON string up to and past the closing quote,
unescaping as `serde_json` does; raw control characters are rejected. -/
def parseStringBody : List Char → Option (List Char × List Char)
  | [] => none
  | c :: rest =>
    if c = '"' then some ([], rest)
    else if c = '\\' then
      match rest with
      | [] => none
      | e :: r =>
        if e = '"' ∨ e = '\\' ∨ e = '/' then
          consStr (if e = '/' then '/' else e) (parseStringBody r)
        else if e = 'b' then consStr (Char.ofNat 8) (parseStringBody r)
        else if e = 't' then consStr (Char.ofNat 9) (parseStringBody r)
        else if e = 'n' then consStr (Char.ofNat 10) (parseStringBody r)
        else if e = 'f' then consStr (Char.ofNat 12) (parseStringBody r)
        else if e = 'r' then consStr (Char.ofNat 13) (parseStringBody r)
        else if e = 'u' then
          match r with
          | h1 :: h2 :: h3 :: h4 :: r2 =>
            match hexVal h1, hexVal h2, hexVal h3, hexVal h4 with
            | some v1, some v2, some v3, some v4 =>
              let v := v1 * 4096 + v2 * 256 + v3 * 16 + v4
              if 55296 ≤ v ∧ v < 57344 then none
              else consStr (Char.ofNat v) (parseStringBody r2)
            | _, _, _, _ => none
          | _ => none
        else none
    else if c.toNat < 32 then none
    else consStr c (parseStringBody rest)
termination_by structural cs => cs

/-- Is `c` an ASCII decimal digit? -/
def isDigitC (c : Char) : Bool := 48 ≤ c.toNat && c.toNat ≤ 57

/-- Split the longest leading digit run from the rest. -/
def takeDigits : List Char → (List Char × List Char)
  | [] => ([], [])
  | c :: rest =>
    if isDigitC c then
      let (ds, r) := takeDigits rest
      (c :: ds, r)
    else ([], c :: rest)

/-- Numeric value of a digit run, most significant first. -/
def decValC : List Char → Nat → Nat
  | [], acc => acc
  | c :: rest, acc => decValC rest (acc * 10 + (c.toNat - 48))

mutual

/-- Fuel-driven JSON value parsing; `none` is both a parse failure and
fuel exhaustion (sufficient fuel is supplied at the top level). -/
def parseValue : Nat → List Char → Option (Json × List Char)
  | 0, _ => none
  | fuel + 1, cs =>
    match skipWs cs with
    | [] => none
    | c :: rest =>
      if c = 'n' then
        match rest with
        | 'u' :: 'l' :: 'l' :: r => some (Json.null, r)
        | _ => none
      else if c = 't' then
        match rest with
        | 'r' :: 'u' :: 'e' :: r => some (Json.bool true, r)
        | _ => none
      else if c = 'f' then
        match rest with
        | 'a' :: 'l' :: 's' :: 'e' :: r => some (Json.bool false, r)
        | _ => none
      else if c = '"' then
        match parseStringBody rest with
        | some (s, r) => some (Json.str s, r)
        | none => none
      else if c = '[' then
        match parseElems fuel rest with
        | some (js, r) => some (Json.arr js, r)
        | none => none
      else if c = lbrace then
        match parseMembers fuel rest with
        | some (fs, r) => some (Json.obj fs, r)
        | none => none
      else if isDigitC c then
        let (ds, r) := takeDigits (c :: rest)
        match ds with
        | [] => none
        | d :: ds2 => if d = '0' ∧ ds2 ≠ [] then none
                      else some (Json.num (decValC ds 0), r)
      else none
termination_by structural fuel cs => fuel

/-- Elements of an array after the opening bracket. -/
def parseElems : Nat → List Char → Option (List Json × List Char)
  | 0, _ => none
  | fuel + 1, cs =>
    match skipWs cs with
    | [] => none
    | c :: rest =>
      if c = ']' then some ([], rest)
      else
        match parseValue fuel (c :: rest) with
        | none => none
        | some (j, r) =>
          match skipWs r with
          | [] => none
          | c2 :: r2 =>
            if c2 = ',' then
              match parseElems fuel r2 with
              | some (js, r3) => some (j :: js, r3)
              | none => none
            else if c2 = ']' then some ([j], r2)
            else none
termination_by structural fuel cs => fuel

/-- Members of an object after the opening brace. -/
def parseMembers : Nat → List Char → Option (List (List Char × Json) × List Char)
  | 0, _ => none
  | fuel + 1, cs =>
    match skipWs cs with
    | [] => none
    | c :: rest =>
      if c = rbrace then some ([], rest)
      else if c = '"' then
        match parseStringBody rest with
        | none => none
        | some (k, r) =>
          match skipWs r with
          | [] => none
          | c1 :: r2 =>
            if c1 ≠ ':' then none
            else
            match parseValue fuel r2 with
            | none => none
            | some (v, r3) =>
              match skipWs r3 with
              | [] => none
              | c2 :: r4 =>
                if c2 = ',' then
                  match parseMembers fuel r4 with
                  | some (fs, r5) => some ((k, v) :: fs, r5)
                  | none => none
                else if c2 = rbrace then some ([(k, v)], r4)
                else none
      else none
termination_by structural fuel cs => fuel

end

/-- Top-level JSON parsing: parse one value, then require only trailing
whitespace (as `serde_json::from_slice` does). -/
def jsonParse (cs : List Char) : Option Json :=
  match parseValue (2 * cs.length + 2) cs with
  | some (j, rest) => if skipWs rest = [] then some j else none
  | none => none

/-- `serde_json::from_slice`: UTF-8 decoding plus JSON parsing. -/
def from_slice (bs : List Nat) : Option Json :=
  match utf8Decode bs with
  | none => none
  | some cs => jsonParse cs

/-! Parser fuel adequate for a serialized value (a proof device: the
executable entry point `jsonParse` supplies fuel from the input length,
and the lemmas below show this is at least `jfuel`). -/

mutual

def jfuel : Json → Nat
  | .arr elems => 1 + lfuel elems
  | .obj fields => 1 + ffuel fields
  | _ => 1

def lfuel : List Json → Nat
  | [] => 1
  | j :: js => 1 + max (jfuel j) (lfuel js)

def ffuel : List (List Char × Json) → Nat
  | [] => 1
  | kv :: fs => 1 + max (jfuel kv.2) (ffuel fs)

end

/-- May the rest of the input legally follow a serialized value?
(Empty, or a separator or closing bracket: what actually follows inside
a serialized array or object.) -/
def delimB : List Char → Bool
  | [] => true
  | c :: _ => c = ',' || c = ']' || c = rbrace

/-! ### Wire framing

`send_message` (lsp_client.rs:223) writes
`Content-Length: <byte length>\r\n\r\n` followed by the serialized JSON;
the reading half of `read_response` (lsp_client.rs:239) reads header
lines until a blank line, extracts `Content-Length`, reads exactly that
many bytes and parses them. -/

/-- The characters of the header `format!` string for a given length. -/
def ctHeaderChars (len : Nat) : List Char :=
  ("Content-Length: ").data ++ natToDecChars len ++ ['\r', '\n', '\r', '\n']

/-- `send_message`: the exact bytes written for one message —
`content.len()` in the header is the byte length of the serialized
payload (Rust `String::len` counts bytes). -/
def send_message (message : Json) : List Nat :=
  let content := Json.serialize message
  let contentBytes := utf8Encode content
  utf8Encode (ctHeaderChars contentBytes.length) ++ contentBytes

/-- `BufRead::read_line`: bytes of the next line including its newline;
at end of stream it returns `Ok(0)`, i.e. an empty line and no progress. -/
def readLine : List Nat → (List Nat × List Nat)
  | [] => ([], [])
  | b :: rest =>
    if b = 10 then ([10], rest)
    else
      let (l, r) := readLine rest
      (b :: l, r)

/-- The inner header loop of `read_response`: accumulate lines until a
line equal to `"\r\n"`. A `none` result means the loop was still running
after `fuel` iterations — on a stream at end-of-file `read_line` keeps
returning an empty line, which never equals `"\r\n"`. -/
def readHeaderAux : Nat → List Nat → Option (List Nat × List Nat)
  | 0, _ => none
  | fuel + 1, input =>
    let (line, rest) := readLine input
    if line = [13, 10] then some ([], rest)
    else
      match readHeaderAux fuel rest with
      | none => none
      | some (hdr, rest2) => some (line ++ hdr, rest2)

/-- Drop one trailing occurrence of byte `x`. -/
def stripSuffix1 (x : Nat) (l : List Nat) : List Nat :=
  if l.getLast? = some x then l.dropLast else l

/-- `str::lines` on the accumulated header: split on line feeds,
stripping the terminator and one trailing carriage return per line. -/
def splitLinesAux : Nat → List Nat → List (List Nat)
  | 0, _ => []
  | fuel + 1, input =>
    match input with
    | [] => []
    | _ =>
      let (line, rest) := readLine input
      stripSuffix1 13 (stripSuffix1 10 line) :: splitLinesAux fuel rest

def splitLines (bs : List Nat) : List (List Nat) :=
  splitLinesAux bs.length bs

/-- Does `l` start with the given byte pattern? -/
def startsWithB : List Nat → List Nat → Bool
  | [], _ => true
  | _ :: _, [] => false
  | p :: ps, b :: bs => p = b && startsWithB ps bs

/-- Bytes of an ASCII string. -/
def asciiB (s : String) : List Nat := s.data.map Char.toNat

/-- Everything after the first colon. -/
def dropToColon : List Nat → Option (List Nat)
  | [] => none
  | b :: bs => if b = 58 then some bs else dropToColon bs

/-- Everything before the next colon. -/
def takeToColon : List Nat → List Nat
  | [] => []
  | b :: bs => if b = 58 then [] else b :: takeToColon bs

/-- Rust `str::trim` on the ASCII whitespace that can occur here. -/
def isWsB (b : Nat) : Bool := b = 32 || b = 9 || b = 10 || b = 13

def trimBytes (l : List Nat) : List Nat :=
  ((l.dropWhile isWsB).reverse.dropWhile isWsB).reverse

/-- Is `b` an ASCII digit byte? -/
def isDigitB (b : Nat) : Bool := 48 ≤ b && b ≤ 57

/-- Numeric value of a run of digit bytes, most significant first. -/
def decValB : List Nat → Nat → Nat
  | [], acc => acc
  | b :: rest, acc => decValB rest (acc * 10 + (b - 48))

/-- `str::parse::<usize>`: an optional plus sign, then at least one
digit, failing on overflow past `usize::MAX` (64-bit target). -/
def parseUsize (l : List Nat) : Option Nat :=
  let l2 := if l.head? = some 43 then l.tail else l
  if l2 ≠ [] ∧ l2.all (fun b => isDigitB b) then
    let v := decValB l2 0
    if v < 2 ^ 64 then some v else none
  else none

/-- The `Content-Length` extraction of `read_response`
(lsp_client.rs:252): find the first header line starting with
`Content-Length:`, take the split-on-colon segment after the name, trim
it, and parse it as a `usize`. -/
def parseContentLength (header : List Nat) : Option Nat :=
  match (splitLines header).find? (fun l => startsWithB (asciiB ("Content-Length:")) l) with
  | none => none
  | some line =>
    match dropToColon line with
    | none => none
    | some afterName => parseUsize (trimBytes (takeToColon afterName))

/-- One iteration of the outer `read_response` loop: read header lines,
extract the declared length, read exactly that many bytes, parse them.
`none` is divergence of the header loop; `some (.error e)` is an early
`return Err`. -/
def decodeOneFrame (fuel : Nat) (input : List Nat) :
    Option (Except String (Json × List Nat)) :=
  match readHeaderAux fuel input with
  | none => none
  | some (header, rest) =>
    match parseContentLength header with
    | none => some (.error "Invalid LSP header")
    | some contentLength =>
      if contentLength ≤ rest.length then
        match from_slice (rest.take contentLength) with
        | none => some (.error "JSON parse error")
        | some message => some (.ok (message, rest.drop contentLength))
      else some (.error "failed to fill whole buffer")

/-- The declared `Content-Length` of the frame at the head of `input`. -/
def declaredContentLength (fuel : Nat) (input : List Nat) : Option Nat :=
  match readHeaderAux fuel input with
  | none => none
  | some (header, _) => parseContentLength header

/-- The key `"id"`. -/
def idKey : List Char := ['i', 'd']

/-- `message.get("id").and_then(|id| id.as_u64())`. -/
def Json.msgId (message : Json) : Option Nat :=
  (message.get idKey).bind Json.asU64

/-- `read_response` (lsp_client.rs:236): loop reading frames until one
has `id` equal to `expected_id`; every other frame (notification or
response for a different id) is consumed and the loop continues. The
`$/progress` branch only prints, so it has no effect on the result. -/
def read_response : Nat → Nat → List Nat → Option (Except String (Json × List Nat))
  | 0, _, _ => none
  | fuel + 1, expectedId, input =>
    match decodeOneFrame (fuel + 1) input with
    | none => none
    | some (.error e) => some (.error e)
    | some (.ok (message, rest)) =>
      if message.msgId = some expectedId then some (.ok (message, rest))
      else read_response fuel expectedId rest

/-- Concatenation of the wire encodings of a sequence of frames: the
byte stream a server that writes these frames in order produces. -/
def encodeFrames : List Json → List Nat
  | [] => []
  | f :: fs => send_message f ++ encodeFrames fs

/-! ### The client session (`RustAnalyzerClient`)

State threading replaces the `Arc<Mutex<…>>` handles: `input` is the
unread part of the server's output stream, `sent` the frames written so
far, `writerOpen` whether the child's stdin can still be written
(writing to a closed pipe fails with a broken-pipe error which `?`
propagates), `processAlive` whether the child has not yet been reaped.
`attempts` logs, in order, every protocol or kill operation *invoked*,
whether or not it succeeds. -/

structure ClientState where
  requestId : Nat
  input : List Nat
  sent : List Json
  writerOpen : Bool
  processAlive : Bool
  attempts : List (List Char)

/-- The state right after `RustAnalyzerClient::new`:
`request_id: AtomicU64::new(1)`. -/
def freshClient (input : List Nat) : ClientState :=
  { requestId := 1, input := input, sent := [], writerOpen := true,
    processAlive := true, attempts := [] }

/-- `self.request_id.fetch_add(1, Ordering::SeqCst)`: returns the old
value; the `u64` counter wraps on overflow. -/
def next_id (st : ClientState) : Nat × ClientState :=
  (st.requestId, { st with requestId := (st.requestId + 1) % 2 ^ 64 })

/-- `send_message` at the session level: appends the frame to the write
log, or fails if the child's stdin is gone. -/
def sendMessageSt (message : Json) (st : ClientState) : Except String ClientState :=
  if st.writerOpen then .ok { st with sent := st.sent ++ [message] }
  else .error "Broken pipe"

/-- The `json!` request object, fields in source order. -/
def requestFrame (id : Nat) (method : List Char) (params : Json) : Json :=
  Json.obj [(("jsonrpc").data, Json.str ("2.0").data),
            (idKey, Json.num id),
            (("method").data, Json.str method),
            (("params").data, params)]

/-- The `json!` notification object — it carries no `id` field. -/
def notificationFrame (method : List Char) (params : Json) : Json :=
  Json.obj [(("jsonrpc").data, Json.str ("2.0").data),
            (("method").data, Json.str method),
            (("params").data, params)]

/-- `send_request` (lsp_client.rs:186): draw a fresh id, send the
request frame, run `read_response` for that id, then fail on an `error`
field and otherwise extract the `result` field. -/
def send_request (fuel : Nat) (method : List Char) (params : Json)
    (st : ClientState) : Option (Except String Json × ClientState) :=
  let p := next_id { st with attempts := st.attempts ++ [method] }
  match sendMessageSt (requestFrame p.1 method params) p.2 with
  | .error e => some (.error e, p.2)
  | .ok st2 =>
    match read_response fuel p.1 st2.input with
    | none => none
    | some (.error e) => some (.error e, st2)
    | some (.ok (response, restInput)) =>
      let st3 := { st2 with input := restInput }
      match response.get (("error").data) with
      | some err =>
        some (.error (String.mk (("LSP error: ").data ++ Json.serialize err)), st3)
      | none =>
        match response.get (("result").data) with
        | some result => some (.ok result, st3)
        | none => some (.error "No result in response", st3)

/-- `send_notification` (lsp_client.rs:212): fire-and-forget, no id, no
response awaited. -/
def send_notification (method : List Char) (params : Json)
    (st : ClientState) : Except String Unit × ClientState :=
  let st1 := { st with attempts := st.attempts ++ [method] }
  match sendMessageSt (notificationFrame method params) st1 with
  | .ok st2 => (.ok (), st2)
  | .error e => (.error e, st1)

/-- `Child::kill`: succeeds on a live child (after which its pipes are
gone), errors on an already reaped one; always logged as attempted. -/
def processKill (st : ClientState) : Except String Unit × ClientState :=
  let st1 := { st with attempts := st.attempts ++ [("kill").data] }
  if st1.processAlive then
    (.ok (), { st1 with processAlive := false, writerOpen := false })
  else (.error "invalid argument", st1)

/-- `Child::wait`: reaps the child; its pipes are closed afterwards. -/
def processWait (st : ClientState) : ClientState :=
  { st with processAlive := false, writerOpen := false }

/-- `initialize` (lsp_client.rs:56): send the `initialize` request with
the caller-supplied parameters, await its response, then send the
`initialized` notification (empty params object), and return the
response payload as received (`from_value` only re-types it; nothing is
cached or interpreted). -/
def initSession (fuel : Nat) (initParams : Json) (st : ClientState) :
    Option (Except String Json × ClientState) :=
  match send_request fuel (("initialize").data) initParams st with
  | none => none
  | some (.error e, st1) => some (.error e, st1)
  | some (.ok response, st1) =>
    match send_notification (("initialized").data) (Json.obj []) st1 with
    | (.error e, st2) => some (.error e, st2)
    | (.ok _, st2) => some (.ok response, st2)

/-- `shutdown` (lsp_client.rs:342): `shutdown` request, `exit`
notification, wait for the child; each `?` propagates a failure. -/
def shutdown (fuel : Nat) (st : ClientState) :
    Option (Except String Unit × ClientState) :=
  match send_request fuel (("shutdown").data) Json.null st with
  | none => none
  | some (.error e, st1) => some (.error e, st1)
  | some (.ok _, st1) =>
    match send_notification (("exit").data) Json.null st1 with
    | (.error e, st2) => some (.error e, st2)
    | (.ok _, st2) => some (.ok (), processWait st2)

/-- `Drop for RustAnalyzerClient` (lsp_client.rs:350): best-effort
shutdown request, exit notification and kill, every failure discarded
by `let _ = …`; the function itself returns nothing and has no error
path. (`none` models the drop blocking inside `read_response`.) -/
def dropClient (fuel : Nat) (st : ClientState) : Option ClientState :=
  match send_request fuel (("shutdown").data) Json.null st with
  | none => none
  | some (_, st1) =>
    let st2 := (send_notification (("exit").data) Json.null st1).2
    some (processKill st2).2

/-- The session state after `k` draws of the id counter. -/
def drawsState (st : ClientState) : Nat → ClientState
  | 0 => st
  | k + 1 => (next_id (drawsState st k)).2

/-- The id returned by the `k`-th `next_id` draw (0-based). -/
def drawnId (st : ClientState) (k : Nat) : Nat :=
  (next_id (drawsState st k)).1

/-! ### Readiness polling (`wait_for_ready`, lsp_client.rs:311)

`probe k` is the outcome of the `k`-th `document_symbols` call and
`elapsedNs k` the value of `start.elapsed()` (in nanoseconds) when the
`k`-th iteration reaches the deadline check; both are parameters of the
model since they depend on the server and the clock. -/

structure SymbolInformation where
  name : List Char

structure DocumentSymbol where
  name : List Char

/-- `lsp_types::DocumentSymbolResponse`: flat or nested symbol list. -/
inductive DocumentSymbolResponse where
  | flat (symbols : List SymbolInformation)
  | nested (symbols : List DocumentSymbol)

/-- Outcome of one `document_symbols` probe: an `Err`, an `Ok(None)`
(the response did not deserialize to a symbol list), or `Ok(Some(r))`. -/
inductive ProbeResult where
  | err
  | missing
  | resp (r : DocumentSymbolResponse)

/-- The guard of the two `return Ok(())` match arms: `Ok(Some(Flat(s)))`
or `Ok(Some(Nested(s)))` with `!s.is_empty()`; everything else falls
through to the deadline check. -/
def isReadyResult : ProbeResult → Bool
  | .resp (.flat symbols) => !symbols.isEmpty
  | .resp (.nested symbols) => !symbols.isEmpty
  | _ => false

/-- The polling loop body, starting at iteration `k`: probe first, then
`if start.elapsed() > max_duration` fail with the timeout error, else
sleep and loop. -/
def wait_for_ready_aux (probe : Nat → ProbeResult) (elapsedNs : Nat → Nat)
    (maxNs : Nat) : Nat → Nat → Option (Except String Unit)
  | 0, _ => none
  | fuel + 1, k =>
    if isReadyResult (probe k) then some (.ok ())
    else if maxNs < elapsedNs k then
      some (.error "Timeout waiting for rust-analyzer to be ready")
    else wait_for_ready_aux probe elapsedNs maxNs fuel (k + 1)

/-- `wait_for_ready`: `max_duration = Duration::from_secs(max_wait_secs)`. -/
def wait_for_ready (probe : Nat → ProbeResult) (elapsedNs : Nat → Nat)
    (maxWaitSecs : Nat) (fuel : Nat) : Option (Except String Unit) :=
  wait_for_ready_aux probe elapsedNs (1000000000 * maxWaitSecs) fuel 0

/-! ### Concrete frames and states for the test scenarios -/

/-- A server-pushed notification (no `id` member). -/
def notifFrame1 : Json :=
  notificationFrame (("window/logMessage").data) (Json.obj [])

/-- A response frame with the given id and a numeric result. -/
def respFrame (id : Nat) : Json :=
  Json.obj [(("jsonrpc").data, Json.str ("2.0").data),
            (idKey, Json.num id),
            (("result").data, Json.num (100 + id))]

/-- A response for id 1 carrying both an `error` and a `result` member. -/
def respErrFrame : Json :=
  Json.obj [(("jsonrpc").data, Json.str ("2.0").data),
            (idKey, Json.num 1),
            (("error").data, Json.obj [(("code").data, Json.num 1)]),
            (("result").data, Json.num 7)]

/-- The fake server's reply to `initialize`:
`(converted from) {"jsonrpc":"2.0","id":1,"result":{"capabilities":(empty)}}`. -/
def initRespFrame : Json :=
  Json.obj [(("jsonrpc").data, Json.str ("2.0").data),
            (idKey, Json.num 1),
            (("result").data, Json.obj [(("capabilities").data, Json.obj [])])]

/-- A frame whose payload holds a two-byte UTF-8 character, so its byte
length differs from its character count. -/
def eAcuteFrame : Json := Json.obj [(("k").data, Json.str ("é").data)]

/-- The session state an explicit `shutdown` leaves behind: the child
reaped and both its pipes closed. -/
def postShutdownState : ClientState :=
  { requestId := 2, input := [], sent := [], writerOpen := false,
    processAlive := false, attempts := [] }

/-- A probe schedule: first an empty flat list, then a non-empty nested
list. -/
def probeFlatThenNested : Nat → ProbeResult := fun i =>
  if i = 0 then ProbeResult.resp (.flat [])
  else ProbeResult.resp (.nested [⟨("main").data⟩])

/-- A probe that always fails. -/
def probeAlwaysErr : Nat → ProbeResult := fun _ => ProbeResult.err

/-- A probe that always returns a non-empty flat list. -/
def probeReadyFlat : Nat → ProbeResult := fun _ =>
  ProbeResult.resp (.flat [⟨("main").data⟩])

/-- A clock stuck at a tenth of a second. -/
def clockTenth : Nat → Nat := fun _ => 100000000

/-- A clock advancing six tenths of a second per iteration. -/
def clockSixTenths : Nat → Nat := fun i => i * 600000000

/-- A clock already far past any small budget. -/
def clockLate : Nat → Nat := fun _ => 5000000000

/-! ## Character and decimal lemmas -/

theorem decDigitsRev_eq (n : Nat) : ∀ fuel, n ≤ fuel →
    decDigitsRev fuel n = Nat.digits 10 n := by
  induction n using Nat.strong_induction_on with
  | _ n ih =>
    intro fuel hf
    cases n with
    | zero => cases fuel <;> simp [decDigitsRev]
    | succ m =>
      cases fuel with
      | zero => omega
      | succ f =>
        show (m + 1) % 10 :: decDigitsRev f ((m + 1) / 10) = _
        rw [ih ((m + 1) / 10) (by omega) f (by omega)]
        rw [Nat.digits_def' (by norm_num : (1 : Nat) < 10) (Nat.succ_pos m)]

theorem toNat_ofNat_valid (n : Nat) (h : n.isValidChar) : (Char.ofNat n).toNat = n := by
  unfold Char.ofNat
  rw [dif_pos h]
  rfl

theorem toNat_ofNat_small (n : Nat) (h : n < 55296) : (Char.ofNat n).toNat = n :=
  toNat_ofNat_valid n (Or.inl h)

theorem char_valid_nat (c : Char) :
    c.toNat < 55296 ∨ (57344 ≤ c.toNat ∧ c.toNat < 1114112) := by
  rcases c.valid with h | ⟨h1, h2⟩
  · exact Or.inl h
  · exact Or.inr ⟨h1, h2⟩

theorem char_ne_of_toNat_ne {a b : Char} (h : a.toNat ≠ b.toNat) : a ≠ b :=
  fun e => h (congrArg Char.toNat e)

theorem digitChar_toNat {d : Nat} (h : d < 10) : (digitChar d).toNat = 48 + d :=
  toNat_ofNat_small (48 + d) (by omega)

theorem hexChar_toNat {d : Nat} (h : d < 16) :
    (hexChar d).toNat = if d < 10 then 48 + d else 87 + d := by
  unfold hexChar
  by_cases h10 : d < 10
  · rw [if_pos h10, if_pos h10, toNat_ofNat_small _ (by omega)]
  · rw [if_neg h10, if_neg h10, toNat_ofNat_small _ (by omega)]

theorem hexVal_hexChar {d : Nat} (h : d < 16) : hexVal (hexChar d) = some d := by
  unfold hexVal
  rw [hexChar_toNat h]
  by_cases h10 : d < 10
  · rw [if_pos h10, if_pos (by omega)]
    congr 1
    omega
  · rw [if_neg h10, if_neg (by omega), if_pos (by omega)]
    congr 1
    omega

theorem decValB_digits (vs : List Nat) :
    ∀ acc, (∀ d ∈ vs, d < 10) →
      decValB (vs.map (fun d => 48 + d)) acc =
        acc * 10 ^ vs.length + Nat.ofDigits 10 vs.reverse := by
  induction vs with
  | nil => intro acc _; simp [decValB, Nat.ofDigits]
  | cons d vs ih =>
    intro acc hd
    have hd10 : d < 10 := hd d (by simp)
    have hrest : ∀ x ∈ vs, x < 10 := fun x hx => hd x (by simp [hx])
    simp only [List.map_cons, decValB]
    rw [show 48 + d - 48 = d from by omega, ih (acc * 10 + d) hrest]
    rw [List.reverse_cons, Nat.ofDigits_append]
    simp [Nat.ofDigits]
    ring

theorem decValC_digits (vs : List Nat) :
    ∀ acc, (∀ d ∈ vs, d < 10) →
      decValC (vs.map digitChar) acc =
        acc * 10 ^ vs.length + Nat.ofDigits 10 vs.reverse := by
  induction vs with
  | nil => intro acc _; simp [decValC, Nat.ofDigits]
  | cons d vs ih =>
    intro acc hd
    have hd10 : d < 10 := hd d (by simp)
    have hrest : ∀ x ∈ vs, x < 10 := fun x hx => hd x (by simp [hx])
    simp only [List.map_cons, decValC]
    rw [digitChar_toNat hd10, show 48 + d - 48 = d from by omega, ih (acc * 10 + d) hrest]
    rw [List.reverse_cons, Nat.ofDigits_append]
    simp [Nat.ofDigits]
    ring

/-- Every character of the decimal rendering is an ASCII digit. -/
theorem natToDecChars_digits (n : Nat) :
    ∀ c ∈ natToDecChars n, 48 ≤ c.toNat ∧ c.toNat ≤ 57 := by
  unfold natToDecChars
  by_cases h0 : n = 0
  · rw [if_pos h0]
    intro c hc
    simp at hc
    subst hc
    decide
  · rw [if_neg h0, decDigitsRev_eq n n le_rfl]
    intro c hc
    simp at hc
    obtain ⟨d, hd, rfl⟩ := hc
    have : d < 10 := Nat.digits_lt_base (by norm_num) hd
    rw [digitChar_toNat this]
    omega

theorem decValC_natToDecChars (n : Nat) : decValC (natToDecChars n) 0 = n := by
  unfold natToDecChars
  by_cases h0 : n = 0
  · rw [if_pos h0, h0]
    decide
  · rw [if_neg h0, decDigitsRev_eq n n le_rfl]
    have hlt : ∀ d ∈ (Nat.digits 10 n).reverse, d < 10 := fun d hd =>
      Nat.digits_lt_base (by norm_num) (List.mem_reverse.mp hd)
    rw [decValC_digits _ 0 hlt]
    simp [Nat.ofDigits_digits]

theorem parseUsize_dec {n : Nat} (h : n < 2 ^ 64) :
    parseUsize ((natToDecChars n).map Char.toNat) = some n := by
  unfold parseUsize
  by_cases h0 : n = 0
  · subst h0
    decide
  · have hne : Nat.digits 10 n ≠ [] := Nat.digits_ne_nil_iff_ne_zero.mpr h0
    have hd : ∀ c ∈ natToDecChars n, 48 ≤ c.toNat ∧ c.toNat ≤ 57 := natToDecChars_digits n
    have hnn : natToDecChars n ≠ [] := by
      unfold natToDecChars
      rw [if_neg h0, decDigitsRev_eq n n le_rfl]
      simpa using hne
    have hhead : ((natToDecChars n).map Char.toNat).head? ≠ some 43 := by
      cases hc : natToDecChars n with
      | nil => exact absurd hc hnn
      | cons c cs =>
        have := hd c (by rw [hc]; simp)
        simp only [hc, List.map_cons, List.head?]
        intro he
        have : c.toNat = 43 := by simpa using he
        omega
    rw [if_neg hhead]
    have hall : ((natToDecChars n).map Char.toNat).all (fun b => isDigitB b) = true := by
      rw [List.all_eq_true]
      intro b hb
      simp at hb
      obtain ⟨c, hc, rfl⟩ := hb
      have := hd c hc
      simp [isDigitB]
      omega
    have hne2 : (natToDecChars n).map Char.toNat ≠ [] := by simpa using hnn
    rw [if_pos ⟨hne2, hall⟩]
    have hval : decValB ((natToDecChars n).map Char.toNat) 0 = n := by
      unfold natToDecChars
      rw [if_neg h0, decDigitsRev_eq n n le_rfl]
      have hlt : ∀ d ∈ (Nat.digits 10 n).reverse, d < 10 := fun d hd =>
        Nat.digits_lt_base (by norm_num) (List.mem_reverse.mp hd)
      rw [List.map_map]
      have hmap : (Nat.digits 10 n).reverse.map (Char.toNat ∘ digitChar) =
          (Nat.digits 10 n).reverse.map (fun d => 48 + d) := by
        apply List.map_congr_left
        intro d hdm
        exact digitChar_toNat (hlt d hdm)
      rw [hmap, decValB_digits _ 0 hlt]
      simp [Nat.ofDigits_digits]
    rw [hval, if_pos h]

/-! ## UTF-8 lemmas -/

theorem utf8EncodeChar_ascii {c : Char} (h : c.toNat < 128) :
    utf8EncodeChar c = [c.toNat] := by
  unfold utf8EncodeChar
  rw [if_pos h]

theorem utf8Encode_ascii (s : List Char) (h : ∀ c ∈ s, c.toNat < 128) :
    utf8Encode s = s.map Char.toNat := by
  induction s with
  | nil => rfl
  | cons c cs ih =>
    simp only [utf8Encode, List.map_cons]
    rw [utf8EncodeChar_ascii (h c (by simp)), ih (fun x hx => h x (by simp [hx]))]
    rfl

theorem utf8EncodeChar_ne_nil (c : Char) : utf8EncodeChar c ≠ [] := by
  unfold utf8EncodeChar
  dsimp only
  split_ifs <;> simp

theorem utf8DecodeOne_encode (c : Char) (rest : List Nat) :
    utf8DecodeOne (utf8EncodeChar c ++ rest) = some (c, rest) := by
  have hv := char_valid_nat c
  unfold utf8EncodeChar
  by_cases h1 : c.toNat < 128
  · rw [if_pos h1]
    simp only [List.cons_append, List.nil_append, utf8DecodeOne]
    rw [if_pos h1, Char.ofNat_toNat]
  · by_cases h2 : c.toNat < 2048
    · rw [if_neg h1, if_pos h2]
      simp only [List.cons_append, List.nil_append, utf8DecodeOne]
      rw [if_neg (by omega), if_neg (by omega), if_pos (by omega),
        if_pos (by omega : 128 ≤ 128 + c.toNat % 64 ∧ 128 + c.toNat % 64 < 192)]
      have he : (192 + c.toNat / 64 - 192) * 64 + (128 + c.toNat % 64 - 128)
          = c.toNat := by omega
      rw [he, if_pos (by omega), Char.ofNat_toNat]
    · by_cases h3 : c.toNat < 65536
      · rw [if_neg h1, if_neg h2, if_pos h3]
        simp only [List.cons_append, List.nil_append, utf8DecodeOne]
        rw [if_neg (by omega), if_neg (by omega), if_neg (by omega),
          if_pos (by omega)]
        rw [if_pos (by omega :
          (128 ≤ 128 + c.toNat / 64 % 64 ∧ 128 + c.toNat / 64 % 64 < 192) ∧
            (128 ≤ 128 + c.toNat % 64 ∧ 128 + c.toNat % 64 < 192))]
        have he : (224 + c.toNat / 4096 - 224) * 4096
            + (128 + c.toNat / 64 % 64 - 128) * 64
            + (128 + c.toNat % 64 - 128) = c.toNat := by omega
        rw [he, if_pos (by omega), Char.ofNat_toNat]
      · rw [if_neg h1, if_neg h2, if_neg h3]
        simp only [List.cons_append, List.nil_append, utf8DecodeOne]
        have hlt : c.toNat < 1114112 := by omega
        rw [if_neg (by omega), if_neg (by omega), if_neg (by omega),
          if_neg (by omega), if_pos (by omega)]
        rw [if_pos (by omega :
          (128 ≤ 128 + c.toNat / 4096 % 64 ∧ 128 + c.toNat / 4096 % 64 < 192) ∧
            (128 ≤ 128 + c.toNat / 64 % 64 ∧ 128 + c.toNat / 64 % 64 < 192) ∧
            (128 ≤ 128 + c.toNat % 64 ∧ 128 + c.toNat % 64 < 192))]
        have he : (240 + c.toNat / 262144 - 240) * 262144
            + (128 + c.toNat / 4096 % 64 - 128) * 4096
            + (128 + c.toNat / 64 % 64 - 128) * 64
            + (128 + c.toNat % 64 - 128) = c.toNat := by omega
        rw [he, if_pos (by omega), Char.ofNat_toNat]

theorem utf8DecodeAux_encode (s : List Char) :
    ∀ fuel, (utf8Encode s).length ≤ fuel →
      utf8DecodeAux fuel (utf8Encode s) = some s := by
  induction s with
  | nil =>
    intro fuel _
    simp [utf8Encode, utf8DecodeAux]
  | cons c cs ih =>
    intro fuel hf
    obtain ⟨b, tail, henc⟩ : ∃ b tail, utf8EncodeChar c = b :: tail := by
      cases he : utf8EncodeChar c with
      | nil => exact absurd he (utf8EncodeChar_ne_nil c)
      | cons b tail => exact ⟨b, tail, rfl⟩
    have hlen : 1 ≤ (utf8EncodeChar c).length := by rw [henc]; simp
    have hbytes : utf8Encode (c :: cs) = b :: (tail ++ utf8Encode cs) := by
      show utf8EncodeChar c ++ utf8Encode cs = _
      rw [henc]
      rfl
    have hflen : (utf8Encode (c :: cs)).length
        = (utf8EncodeChar c).length + (utf8Encode cs).length := by
      show (utf8EncodeChar c ++ utf8Encode cs).length = _
      simp
    cases fuel with
    | zero =>
      exfalso
      rw [hflen] at hf
      omega
    | succ fuel =>
      rw [hbytes]
      simp only [utf8DecodeAux]
      have hdec : utf8DecodeOne (b :: (tail ++ utf8Encode cs)) = some (c, utf8Encode cs) := by
        have : b :: (tail ++ utf8Encode cs) = utf8EncodeChar c ++ utf8Encode cs := by
          rw [henc]
          rfl
        rw [this, utf8DecodeOne_encode]
      rw [hdec]
      have : (utf8Encode cs).length ≤ fuel := by
        rw [hflen] at hf
        omega
      dsimp only
      rw [ih fuel this]

theorem utf8Decode_encode (s : List Char) : utf8Decode (utf8Encode s) = some s :=
  utf8DecodeAux_encode s _ le_rfl

/-! ## JSON parser round-trip lemmas -/

theorem skipWs_cons_of_not_ws {c : Char} (l : List Char)
    (h : c.toNat ≠ 32 ∧ c.toNat ≠ 9 ∧ c.toNat ≠ 10 ∧ c.toNat ≠ 13) :
    skipWs (c :: l) = c :: l := by
  unfold skipWs
  rw [if_neg]
  intro hc
  rcases hc with hc | hc | hc | hc
  · exact h.1 (hc ▸ rfl)
  · exact h.2.1 hc
  · exact h.2.2.1 hc
  · exact h.2.2.2 hc

theorem parseStringBody_escape_step (c : Char) (X : List Char)
    (cs rest : List Char) (hX : parseStringBody X = some (cs, rest)) :
    parseStringBody (escapeChar c ++ X) = some (c :: cs, rest) := by
  have hofn : ∀ m : Nat, c.toNat = m → Char.ofNat m = c := by
    intro m hm
    rw [← hm, Char.ofNat_toNat]
  by_cases hq : c = '"'
  · subst hq
    rw [show escapeChar '"' = ['\\', '"'] from rfl]
    simp only [List.cons_append, List.nil_append]
    unfold parseStringBody
    simp [consStr, hX]
  · by_cases hb : c = '\\'
    · subst hb
      rw [show escapeChar '\\' = ['\\', '\\'] from rfl]
      simp only [List.cons_append, List.nil_append]
      unfold parseStringBody
      simp [consStr, hX]
    · by_cases hctl : c.toNat < 32
      · unfold escapeChar
        rw [if_neg hq, if_neg hb, if_pos hctl]
        by_cases h8 : c.toNat = 8
        · rw [if_pos h8]
          simp only [List.cons_append, List.nil_append]
          unfold parseStringBody
          simp [consStr, hX]
          exact hofn 8 h8
        · rw [if_neg h8]
          by_cases h9 : c.toNat = 9
          · rw [if_pos h9]
            simp only [List.cons_append, List.nil_append]
            unfold parseStringBody
            simp [consStr, hX]
            exact hofn 9 h9
          · rw [if_neg h9]
            by_cases h10 : c.toNat = 10
            · rw [if_pos h10]
              simp only [List.cons_append, List.nil_append]
              unfold parseStringBody
              simp [consStr, hX]
              exact hofn 10 h10
            · rw [if_neg h10]
              by_cases h12 : c.toNat = 12
              · rw [if_pos h12]
                simp only [List.cons_append, List.nil_append]
                unfold parseStringBody
                simp [consStr, hX]
                exact hofn 12 h12
              · rw [if_neg h12]
                by_cases h13 : c.toNat = 13
                · rw [if_pos h13]
                  simp only [List.cons_append, List.nil_append]
                  unfold parseStringBody
                  simp [consStr, hX]
                  exact hofn 13 h13
                · rw [if_neg h13]
                  have h16a : c.toNat / 16 < 16 := by omega
                  have h16b : c.toNat % 16 < 16 := by omega
                  have hz : hexVal '0' = some 0 := by decide
                  have hns : ¬(55296 ≤ c.toNat / 16 * 16 + c.toNat % 16 ∧
                      c.toNat / 16 * 16 + c.toNat % 16 < 57344) := by omega
                  simp only [List.cons_append, List.nil_append]
                  unfold parseStringBody
                  simp [hexVal_hexChar h16a, hexVal_hexChar h16b, hz, hns,
                    consStr, hX]
                  exact hofn (c.toNat / 16 * 16 + c.toNat % 16) (by omega)
      · have hsingle : escapeChar c = [c] := by
          unfold escapeChar
          rw [if_neg hq, if_neg hb, if_neg hctl]
        rw [hsingle]
        simp only [List.cons_append, List.nil_append]
        unfold parseStringBody
        rw [if_neg hq, if_neg hb, if_neg hctl, hX]
        rfl

theorem parseStringBody_escape (s : List Char) :
    ∀ rest, parseStringBody (escapeString s ++ ('"' :: rest)) = some (s, rest) := by
  induction s with
  | nil =>
    intro rest
    show parseStringBody ('"' :: rest) = some ([], rest)
    unfold parseStringBody
    simp
  | cons c cs ih =>
    intro rest
    show parseStringBody ((escapeChar c ++ escapeString cs) ++ ('"' :: rest)) = _
    rw [List.append_assoc]
    exact parseStringBody_escape_step c _ cs rest (ih rest)

theorem takeDigits_not_digit (rest : List Char)
    (h : ∀ c, rest.head? = some c → isDigitC c = false) :
    takeDigits rest = ([], rest) := by
  cases rest with
  | nil => rfl
  | cons c r =>
    have := h c rfl
    simp [takeDigits, this]

theorem takeDigits_append (ds : List Char) (hds : ∀ c ∈ ds, isDigitC c = true) :
    ∀ rest, (∀ c, rest.head? = some c → isDigitC c = false) →
      takeDigits (ds ++ rest) = (ds, rest) := by
  induction ds with
  | nil =>
    intro rest hr
    exact takeDigits_not_digit rest hr
  | cons d ds ih =>
    intro rest hr
    have hd := hds d (by simp)
    simp only [List.cons_append, takeDigits, hd, if_true]
    rw [List.append_eq, ih (fun c hc => hds c (by simp [hc])) rest hr]

theorem delimB_not_digit {rest : List Char} (h : delimB rest = true) :
    ∀ c, rest.head? = some c → isDigitC c = false := by
  intro c hc
  cases rest with
  | nil => simp at hc
  | cons c0 r =>
    have : c0 = c := by simpa using hc
    subst this
    simp [delimB] at h
    rcases h with (h | h) | h <;> subst h <;> decide

theorem natToDecChars_ne_nil (n : Nat) : natToDecChars n ≠ [] := by
  unfold natToDecChars
  by_cases h0 : n = 0
  · rw [if_pos h0]
    simp
  · rw [if_neg h0, decDigitsRev_eq n n le_rfl]
    have : Nat.digits 10 n ≠ [] := Nat.digits_ne_nil_iff_ne_zero.mpr h0
    simpa using this

/-- Shape of a nonzero decimal rendering: a digit head that is not `0`. -/
theorem natToDecChars_shape {n : Nat} (hn : n ≠ 0) :
    ∃ a ds, a < 10 ∧ a ≠ 0 ∧ natToDecChars n = digitChar a :: ds := by
  have hnil : Nat.digits 10 n ≠ [] := Nat.digits_ne_nil_iff_ne_zero.mpr hn
  have hrnil : (Nat.digits 10 n).reverse ≠ [] := by simpa using hnil
  obtain ⟨a, L2, hL⟩ := List.exists_cons_of_ne_nil hrnil
  have hmem : a ∈ Nat.digits 10 n := by
    have : a ∈ (Nat.digits 10 n).reverse := by rw [hL]; simp
    simpa using this
  have ha10 : a < 10 := Nat.digits_lt_base (by norm_num) hmem
  have hlast : (Nat.digits 10 n).getLast hnil = a := by
    have hdig : Nat.digits 10 n = (a :: L2).reverse := by
      rw [← hL]
      simp
    have : (Nat.digits 10 n).getLast hnil
        = ((a :: L2).reverse).getLast (by rw [← hdig]; exact hnil) := by
      congr 1
    rw [this]
    simp only [List.reverse_cons]
    exact List.getLast_concat _
  have ha0 : a ≠ 0 := by
    have := Nat.getLast_digit_ne_zero 10 hn
    rw [show (Nat.digits 10 n).getLast (Nat.digits_ne_nil_iff_ne_zero.mpr hn)
        = (Nat.digits 10 n).getLast hnil from rfl] at this
    rw [hlast] at this
    exact this
  refine ⟨a, L2.map digitChar, ha10, ha0, ?_⟩
  unfold natToDecChars
  rw [if_neg hn, decDigitsRev_eq n n le_rfl, hL]
  rfl

/-- The first character of any serialized value, with its code point
class: letters `n`/`t`/`f`, a digit, a quote, or an opening bracket. -/
theorem ser_head (j : Json) : ∃ c cs, Json.serialize j = c :: cs ∧
    (c.toNat = 110 ∨ c.toNat = 116 ∨ c.toNat = 102 ∨
     (48 ≤ c.toNat ∧ c.toNat ≤ 57) ∨ c.toNat = 34 ∨ c.toNat = 91 ∨
     c.toNat = 123) := by
  cases j with
  | null => exact ⟨'n', _, rfl, by decide⟩
  | bool b => cases b with
    | true => exact ⟨'t', _, rfl, by decide⟩
    | false => exact ⟨'f', _, rfl, by decide⟩
  | num n =>
    by_cases h0 : n = 0
    · subst h0
      exact ⟨'0', [], rfl, by decide⟩
    · obtain ⟨a, ds, ha10, _, hshape⟩ := natToDecChars_shape h0
      refine ⟨digitChar a, ds, hshape, ?_⟩
      rw [digitChar_toNat ha10]
      omega
  | str s => exact ⟨'"', _, rfl, by decide⟩
  | arr elems => exact ⟨'[', _, rfl, by decide⟩
  | obj fields =>
    refine ⟨lbrace, _, rfl, ?_⟩
    have : lbrace.toNat = 123 := by decide
    omega

theorem ser_ne_nil (j : Json) : Json.serialize j ≠ [] := by
  obtain ⟨c, cs, hc, _⟩ := ser_head j
  rw [hc]
  simp

theorem jfuel_pos (j : Json) : 1 ≤ jfuel j := by
  cases j <;> simp [jfuel]

theorem char_ne_of_toNat {c : Char} {m : Nat} (hc : c.toNat ≠ m) (d : Char)
    (hd : d.toNat = m) : c ≠ d :=
  fun e => hc (by rw [e, hd])

theorem parseValue_num (n : Nat) (fuel : Nat) (rest : List Char)
    (hrest : delimB rest = true) :
    parseValue (fuel + 1) (natToDecChars n ++ rest) = some (Json.num n, rest) := by
  have hdigs : ∀ c ∈ natToDecChars n, 48 ≤ c.toNat ∧ c.toNat ≤ 57 :=
    natToDecChars_digits n
  have hdigB : ∀ c ∈ natToDecChars n, isDigitC c = true := by
    intro c hc
    have := hdigs c hc
    simp only [isDigitC]
    rw [Bool.and_eq_true]
    constructor <;> (rw [decide_eq_true_eq]; omega)
  have htake : takeDigits (natToDecChars n ++ rest) = (natToDecChars n, rest) :=
    takeDigits_append _ hdigB rest (delimB_not_digit hrest)
  obtain ⟨c0, cs0, hshape⟩ : ∃ c0 cs0, natToDecChars n = c0 :: cs0 := by
    cases h : natToDecChars n with
    | nil => exact absurd h (natToDecChars_ne_nil n)
    | cons a b => exact ⟨a, b, rfl⟩
  have hc0 := hdigs c0 (by rw [hshape]; simp)
  have hval : decValC (c0 :: cs0) 0 = n := by
    rw [← hshape]
    exact decValC_natToDecChars n
  rw [hshape] at htake ⊢
  simp only [List.cons_append] at htake ⊢
  unfold parseValue
  rw [skipWs_cons_of_not_ws _ ⟨by omega, by omega, by omega, by omega⟩]
  dsimp only
  rw [if_neg (char_ne_of_toNat (show c0.toNat ≠ 110 from by omega) 'n' (by decide)),
    if_neg (char_ne_of_toNat (show c0.toNat ≠ 116 from by omega) 't' (by decide)),
    if_neg (char_ne_of_toNat (show c0.toNat ≠ 102 from by omega) 'f' (by decide)),
    if_neg (char_ne_of_toNat (show c0.toNat ≠ 34 from by omega) '"' (by decide)),
    if_neg (char_ne_of_toNat (show c0.toNat ≠ 91 from by omega) '[' (by decide)),
    if_neg (char_ne_of_toNat (show c0.toNat ≠ 123 from by omega) lbrace (by decide)),
    if_pos (hdigB c0 (by rw [hshape]; simp))]
  rw [htake]
  by_cases hn0 : n = 0
  · subst hn0
    have h0 : c0 = '0' ∧ cs0 = [] := by
      have : (['0'] : List Char) = c0 :: cs0 := hshape
      exact ⟨(List.cons.injEq _ _ _ _ ▸ this.symm).1, (List.cons.injEq _ _ _ _ ▸ this.symm).2⟩
    obtain ⟨rfl, rfl⟩ := h0
    simp [hval]
  · obtain ⟨a, ds, ha10, ha0, hsh2⟩ := natToDecChars_shape hn0
    have hc00 : c0 = digitChar a := by
      rw [hshape] at hsh2
      exact (List.cons.injEq _ _ _ _ ▸ hsh2).1
    have hcne : ¬(c0 = '0' ∧ cs0 ≠ []) := by
      intro hcond
      apply char_ne_of_toNat (c := c0) (m := 48) ?_ '0' (by decide) hcond.1
      rw [hc00, digitChar_toNat ha10]
      omega
    simp only [hcne, if_false]
    simp [hval]

theorem parseValue_str (s : List Char) (fuel : Nat) (rest : List Char) :
    parseValue (fuel + 1) (Json.serialize (Json.str s) ++ rest)
      = some (Json.str s, rest) := by
  show parseValue (fuel + 1) (('"' :: (escapeString s ++ ['"'])) ++ rest) = _
  have hre : ('"' :: (escapeString s ++ ['"'])) ++ rest
      = '"' :: (escapeString s ++ ('"' :: rest)) := by simp
  rw [hre]
  unfold parseValue
  rw [skipWs_cons_of_not_ws _ ⟨by decide, by decide, by decide, by decide⟩]
  simp [parseStringBody_escape s rest]

/-- The head of a serialized value is not whitespace and not a closing
token, so the parser's dispatch sees it unchanged. -/
theorem ser_head_facts (j : Json) : ∃ c0 cs0, Json.serialize j = c0 :: cs0 ∧
    (c0.toNat ≠ 32 ∧ c0.toNat ≠ 9 ∧ c0.toNat ≠ 10 ∧ c0.toNat ≠ 13) ∧
    c0 ≠ ']' ∧ c0 ≠ rbrace := by
  obtain ⟨c, cs, hc, hfacts⟩ := ser_head j
  have h93 : c.toNat ≠ 93 := by
    rcases hfacts with h | h | h | h | h | h | h <;> omega
  have h125 : c.toNat ≠ 125 := by
    rcases hfacts with h | h | h | h | h | h | h <;> omega
  refine ⟨c, cs, hc, ⟨?_, ?_, ?_, ?_⟩,
    char_ne_of_toNat h93 ']' (by decide),
    char_ne_of_toNat h125 rbrace (by decide)⟩ <;>
    (rcases hfacts with h | h | h | h | h | h | h <;> omega)

theorem lfuel_pos (xs : List Json) : 1 ≤ lfuel xs := by
  cases xs <;> simp [lfuel]

theorem ffuel_pos (fs : List (List Char × Json)) : 1 ≤ ffuel fs := by
  cases fs <;> simp [ffuel]

mutual

theorem parseValue_ser (j : Json) : ∀ fuel rest, jfuel j ≤ fuel →
    delimB rest = true →
    parseValue fuel (Json.serialize j ++ rest) = some (j, rest) := by
  intro fuel rest hf hd
  cases fuel with
  | zero => exact absurd (Nat.le_trans (jfuel_pos j) hf) (by omega)
  | succ f =>
    cases j with
    | null =>
      show parseValue (f + 1) (('n' :: 'u' :: 'l' :: 'l' :: []) ++ rest) = _
      unfold parseValue
      simp [skipWs]
    | bool b =>
      cases b with
      | true =>
        show parseValue (f + 1) (('t' :: 'r' :: 'u' :: 'e' :: []) ++ rest) = _
        unfold parseValue
        simp [skipWs]
      | false =>
        show parseValue (f + 1) (('f' :: 'a' :: 'l' :: 's' :: 'e' :: []) ++ rest) = _
        unfold parseValue
        simp [skipWs]
    | num n => exact parseValue_num n f rest hd
    | str s => exact parseValue_str s f rest
    | arr elems =>
      have hl : lfuel elems ≤ f := by
        have he : jfuel (Json.arr elems) = 1 + lfuel elems := by simp [jfuel]
        omega
      show parseValue (f + 1) (('[' :: (serElems elems ++ [']'])) ++ rest) = _
      have hre : ('[' :: (serElems elems ++ [']'])) ++ rest
          = '[' :: (serElems elems ++ (']' :: rest)) := by simp
      rw [hre]
      unfold parseValue
      rw [skipWs_cons_of_not_ws _ ⟨by decide, by decide, by decide, by decide⟩]
      dsimp only
      rw [if_neg (by decide), if_neg (by decide), if_neg (by decide),
        if_neg (by decide), if_pos rfl]
      rw [parseElems_ser elems f rest hl]
    | obj fields =>
      have hl : ffuel fields ≤ f := by
        have he : jfuel (Json.obj fields) = 1 + ffuel fields := by simp [jfuel]
        omega
      show parseValue (f + 1) ((lbrace :: (serFields fields ++ [rbrace])) ++ rest) = _
      have hre : (lbrace :: (serFields fields ++ [rbrace])) ++ rest
          = lbrace :: (serFields fields ++ (rbrace :: rest)) := by simp
      rw [hre]
      unfold parseValue
      rw [skipWs_cons_of_not_ws _ ⟨by decide, by decide, by decide, by decide⟩]
      dsimp only
      rw [if_neg (by decide), if_neg (by decide), if_neg (by decide),
        if_neg (by decide), if_neg (by decide), if_pos rfl]
      rw [parseMembers_ser fields f rest hl]

theorem parseElems_ser (xs : List Json) : ∀ fuel rest, lfuel xs ≤ fuel →
    parseElems fuel (serElems xs ++ (']' :: rest)) = some (xs, rest) := by
  intro fuel rest hf
  cases fuel with
  | zero => exact absurd (Nat.le_trans (lfuel_pos xs) hf) (by omega)
  | succ f =>
    cases xs with
    | nil =>
      show parseElems (f + 1) (([] : List Char) ++ (']' :: rest)) = _
      rw [List.nil_append]
      unfold parseElems
      rw [skipWs_cons_of_not_ws _ ⟨by decide, by decide, by decide, by decide⟩]
      dsimp only
      rw [if_pos rfl]
    | cons j js =>
      have hjf : jfuel j ≤ f := by
        have he : lfuel (j :: js) = 1 + max (jfuel j) (lfuel js) := by simp [lfuel]
        omega
      obtain ⟨c0, cs0, hser, hws, hneRB, _⟩ := ser_head_facts j
      cases js with
      | nil =>
        show parseElems (f + 1) (Json.serialize j ++ (']' :: rest)) = _
        rw [hser]
        simp only [List.cons_append]
        unfold parseElems
        rw [skipWs_cons_of_not_ws _ hws]
        dsimp only
        rw [if_neg hneRB]
        have hback : c0 :: (cs0 ++ (']' :: rest))
            = Json.serialize j ++ (']' :: rest) := by
          rw [hser]
          rfl
        rw [hback, parseValue_ser j f (']' :: rest) hjf (by simp [delimB])]
        dsimp only
        rw [skipWs_cons_of_not_ws _ ⟨by decide, by decide, by decide, by decide⟩]
        dsimp only
        rw [if_neg (by decide), if_pos rfl]
      | cons j2 js2 =>
        have hlf : lfuel (j2 :: js2) ≤ f := by
          have he : lfuel (j :: j2 :: js2)
              = 1 + max (jfuel j) (lfuel (j2 :: js2)) := by simp [lfuel]
          omega
        show parseElems (f + 1)
          ((Json.serialize j ++ ',' :: serElems (j2 :: js2)) ++ (']' :: rest)) = _
        rw [List.append_assoc]
        simp only [List.cons_append]
        rw [hser]
        simp only [List.cons_append]
        unfold parseElems
        rw [skipWs_cons_of_not_ws _ hws]
        dsimp only
        rw [if_neg hneRB]
        have hback : c0 :: (cs0 ++ (',' :: (serElems (j2 :: js2) ++ (']' :: rest))))
            = Json.serialize j ++ (',' :: (serElems (j2 :: js2) ++ (']' :: rest))) := by
          rw [hser]
          rfl
        rw [hback, parseValue_ser j f _ hjf (by simp [delimB])]
        dsimp only
        rw [skipWs_cons_of_not_ws _ ⟨by decide, by decide, by decide, by decide⟩]
        dsimp only
        rw [if_pos rfl, parseElems_ser (j2 :: js2) f rest hlf]

theorem parseMembers_ser (fs : List (List Char × Json)) : ∀ fuel rest,
    ffuel fs ≤ fuel →
    parseMembers fuel (serFields fs ++ (rbrace :: rest)) = some (fs, rest) := by
  intro fuel rest hf
  cases fuel with
  | zero => exact absurd (Nat.le_trans (ffuel_pos fs) hf) (by omega)
  | succ f =>
    cases fs with
    | nil =>
      show parseMembers (f + 1) (([] : List Char) ++ (rbrace :: rest)) = _
      rw [List.nil_append]
      unfold parseMembers
      rw [skipWs_cons_of_not_ws _ ⟨by decide, by decide, by decide, by decide⟩]
      dsimp only
      rw [if_pos rfl]
    | cons kv fs2 =>
      have hjf : jfuel kv.2 ≤ f := by
        have he : ffuel (kv :: fs2) = 1 + max (jfuel kv.2) (ffuel fs2) := by
          simp [ffuel]
        omega
      cases fs2 with
      | nil =>
        show parseMembers (f + 1)
          (('"' :: (escapeString kv.1 ++ '"' :: ':' :: Json.serialize kv.2))
            ++ (rbrace :: rest)) = _
        have hre : ('"' :: (escapeString kv.1 ++ '"' :: ':' :: Json.serialize kv.2))
            ++ (rbrace :: rest)
            = '"' :: (escapeString kv.1
                ++ ('"' :: (':' :: (Json.serialize kv.2 ++ (rbrace :: rest))))) := by
          simp
        rw [hre]
        unfold parseMembers
        rw [skipWs_cons_of_not_ws _ ⟨by decide, by decide, by decide, by decide⟩]
        dsimp only
        rw [if_neg (by decide), if_pos rfl,
          parseStringBody_escape kv.1 (':' :: (Json.serialize kv.2 ++ (rbrace :: rest)))]
        dsimp only
        rw [skipWs_cons_of_not_ws _ ⟨by decide, by decide, by decide, by decide⟩]
        dsimp only
        rw [if_neg (not_not_intro rfl),
          parseValue_ser kv.2 f _ hjf (by simp [delimB])]
        dsimp only
        rw [skipWs_cons_of_not_ws _ ⟨by decide, by decide, by decide, by decide⟩]
        dsimp only
        rw [if_neg (by decide), if_pos rfl]
      | cons kv2 fs3 =>
        have hff : ffuel (kv2 :: fs3) ≤ f := by
          have he : ffuel (kv :: kv2 :: fs3)
              = 1 + max (jfuel kv.2) (ffuel (kv2 :: fs3)) := by simp [ffuel]
          omega
        show parseMembers (f + 1)
          ((('"' :: (escapeString kv.1 ++ '"' :: ':' :: Json.serialize kv.2))
            ++ ',' :: serFields (kv2 :: fs3)) ++ (rbrace :: rest)) = _
        have hre : (('"' :: (escapeString kv.1 ++ '"' :: ':' :: Json.serialize kv.2))
            ++ ',' :: serFields (kv2 :: fs3)) ++ (rbrace :: rest)
            = '"' :: (escapeString kv.1
                ++ ('"' :: (':' :: (Json.serialize kv.2
                  ++ (',' :: (serFields (kv2 :: fs3) ++ (rbrace :: rest))))))) := by
          simp
        rw [hre]
        unfold parseMembers
        rw [skipWs_cons_of_not_ws _ ⟨by decide, by decide, by decide, by decide⟩]
        dsimp only
        rw [if_neg (by decide), if_pos rfl,
          parseStringBody_escape kv.1
            (':' :: (Json.serialize kv.2
              ++ (',' :: (serFields (kv2 :: fs3) ++ (rbrace :: rest)))))]
        dsimp only
        rw [skipWs_cons_of_not_ws _ ⟨by decide, by decide, by decide, by decide⟩]
        dsimp only
        rw [if_neg (not_not_intro rfl),
          parseValue_ser kv.2 f _ hjf (by simp [delimB])]
        dsimp only
        rw [skipWs_cons_of_not_ws _ ⟨by decide, by decide, by decide, by decide⟩]
        dsimp only
        rw [if_pos rfl, parseMembers_ser (kv2 :: fs3) f rest hff]

end

mutual

theorem jfuel_le (j : Json) : jfuel j ≤ (Json.serialize j).length + 1 := by
  cases j with
  | arr elems =>
    have h := lfuel_le elems
    have hlen : (Json.serialize (Json.arr elems)).length
        = (serElems elems).length + 2 := by
      show ('[' :: (serElems elems ++ [']'])).length = _
      simp
    simp only [jfuel]
    omega
  | obj fields =>
    have h := ffuel_le fields
    have hlen : (Json.serialize (Json.obj fields)).length
        = (serFields fields).length + 2 := by
      show (lbrace :: (serFields fields ++ [rbrace])).length = _
      simp
    simp only [jfuel]
    omega
  | null => simp only [jfuel]; omega
  | bool b => cases b <;> (simp only [jfuel]; omega)
  | num n => simp only [jfuel]; omega
  | str s => simp only [jfuel]; omega

theorem lfuel_le (xs : List Json) : lfuel xs ≤ (serElems xs).length + 2 := by
  cases xs with
  | nil => simp [lfuel, serElems]
  | cons j js =>
    have hj := jfuel_le j
    have hpos : 1 ≤ (Json.serialize j).length :=
      List.length_pos.mpr (ser_ne_nil j)
    cases js with
    | nil =>
      have hlen : (serElems [j]).length = (Json.serialize j).length := by
        show (Json.serialize j).length = _
        rfl
      simp only [lfuel]
      omega
    | cons j2 js2 =>
      have hrest := lfuel_le (j2 :: js2)
      have hlen : (serElems (j :: j2 :: js2)).length
          = (Json.serialize j).length + 1 + (serElems (j2 :: js2)).length := by
        show (Json.serialize j ++ ',' :: serElems (j2 :: js2)).length = _
        simp
        omega
      have he : lfuel (j :: j2 :: js2)
          = 1 + max (jfuel j) (lfuel (j2 :: js2)) := by simp [lfuel]
      omega

theorem ffuel_le (fs : List (List Char × Json)) :
    ffuel fs ≤ (serFields fs).length + 2 := by
  cases fs with
  | nil => simp [ffuel, serFields]
  | cons kv fs2 =>
    have hj := jfuel_le kv.2
    cases fs2 with
    | nil =>
      have hlen : (serFields [kv]).length
          = (escapeString kv.1).length + 3 + (Json.serialize kv.2).length := by
        show ('"' :: (escapeString kv.1 ++ '"' :: ':' :: Json.serialize kv.2)).length = _
        simp
        omega
      simp only [ffuel]
      omega
    | cons kv2 fs3 =>
      have hrest := ffuel_le (kv2 :: fs3)
      have hlen : (serFields (kv :: kv2 :: fs3)).length
          = (escapeString kv.1).length + 4 + (Json.serialize kv.2).length
            + (serFields (kv2 :: fs3)).length := by
        show (('"' :: (escapeString kv.1 ++ '"' :: ':' :: Json.serialize kv.2))
          ++ ',' :: serFields (kv2 :: fs3)).length = _
        simp
        omega
      have he : ffuel (kv :: kv2 :: fs3)
          = 1 + max (jfuel kv.2) (ffuel (kv2 :: fs3)) := by simp [ffuel]
      omega

end

/-- Serialize-then-parse round trip at the character level. -/
theorem jsonParse_serialize (j : Json) : jsonParse (Json.serialize j) = some j := by
  unfold jsonParse
  have hfa : jfuel j ≤ 2 * (Json.serialize j).length + 2 := by
    have := jfuel_le j
    omega
  have h := parseValue_ser j (2 * (Json.serialize j).length + 2) [] hfa rfl
  rw [List.append_nil] at h
  rw [h]
  simp [skipWs]

/-- Serialize-then-parse round trip at the byte level
(`serde_json::from_slice` on the exact bytes `serde_json::to_string`
produced). -/
theorem from_slice_serialize (j : Json) :
    from_slice (utf8Encode (Json.serialize j)) = some j := by
  unfold from_slice
  rw [utf8Decode_encode]
  exact jsonParse_serialize j

/-! ## Framing lemmas -/

theorem ctHeaderChars_ascii (len : Nat) : ∀ c ∈ ctHeaderChars len, c.toNat < 128 := by
  have hfix : ∀ x ∈ ("Content-Length: ").data, Char.toNat x < 128 := by decide
  have hcrlf : ∀ x ∈ ['\r', '\n', '\r', '\n'], Char.toNat x < 128 := by decide
  intro c hc
  unfold ctHeaderChars at hc
  rw [List.mem_append, List.mem_append] at hc
  rcases hc with (hc | hc) | hc
  · exact hfix c hc
  · have := natToDecChars_digits len c hc
    omega
  · exact hcrlf c hc

/-- The byte form of `send_message`: ASCII header bytes, the decimal
byte count, CRLF CRLF, then the payload bytes. -/
theorem send_message_eq (j : Json) :
    send_message j
      = ((asciiB ("Content-Length: ")
          ++ (natToDecChars (utf8Encode (Json.serialize j)).length).map Char.toNat)
          ++ [13, 10, 13, 10]) ++ utf8Encode (Json.serialize j) := by
  unfold send_message
  dsimp only
  rw [utf8Encode_ascii _ (ctHeaderChars_ascii _)]
  unfold ctHeaderChars asciiB
  simp

theorem readLine_append {l : List Nat} (h : 10 ∉ l) (r : List Nat) :
    readLine (l ++ 10 :: r) = (l ++ [10], r) := by
  induction l with
  | nil => simp [readLine]
  | cons b l ih =>
    have hb : ¬(b = 10) := fun e => h (by simp [e])
    have ih2 := ih (fun e => h (by simp [e]))
    simp only [List.cons_append, readLine, hb, if_false, List.append_eq, ih2]

theorem readHeaderAux_crlf (body : List Nat) (fuel : Nat) :
    readHeaderAux (fuel + 1) (13 :: 10 :: body) = some ([], body) := by
  unfold readHeaderAux
  have hre : (13 : Nat) :: 10 :: body = [13] ++ 10 :: body := by simp
  rw [hre, readLine_append (by simp) body]
  simp

theorem readHeaderAux_encoded {hdr : List Nat} (h10 : 10 ∉ hdr)
    (hne : hdr ≠ []) (body : List Nat) (fuel : Nat) :
    readHeaderAux (fuel + 2) ((hdr ++ [13, 10, 13, 10]) ++ body)
      = some (hdr ++ [13, 10], body) := by
  have hsplit : (hdr ++ [13, 10, 13, 10]) ++ body
      = (hdr ++ [13]) ++ 10 :: (13 :: 10 :: body) := by simp
  have h10b : 10 ∉ hdr ++ [13] := by
    intro hmem
    rcases List.mem_append.mp hmem with hm | hm
    · exact h10 hm
    · simp at hm
  show readHeaderAux (fuel + 1 + 1) _ = _
  unfold readHeaderAux
  rw [hsplit, readLine_append h10b]
  have hnecrlf : ¬(hdr ++ [13] ++ [10] = [13, 10]) := by
    intro he
    have hl : hdr.length + 2 = 2 := by
      have := congrArg List.length he
      simpa using this
    exact hne (List.length_eq_zero.mp (by omega))
  dsimp only
  rw [if_neg hnecrlf, readHeaderAux_crlf]
  simp

theorem splitLinesAux_nil (fuel : Nat) : splitLinesAux fuel [] = [] := by
  cases fuel <;> simp [splitLinesAux]

theorem stripSuffix1_concat (x : Nat) (l : List Nat) :
    stripSuffix1 x (l ++ [x]) = l := by
  unfold stripSuffix1
  rw [if_pos (by simp), List.dropLast_concat]

theorem splitLines_single (l : List Nat) (h10 : 10 ∉ l) :
    splitLines (l ++ [13, 10]) = [l] := by
  cases l with
  | nil => decide
  | cons a l2 =>
    have h10b : 10 ∉ (a :: l2) ++ [13] := by
      intro hmem
      rcases List.mem_append.mp hmem with hm | hm
      · exact h10 hm
      · simp at hm
    unfold splitLines
    have hlen : ((a :: l2) ++ [13, 10]).length = (l2.length + 2) + 1 := by simp
    rw [hlen]
    show splitLinesAux ((l2.length + 2) + 1) (a :: (l2 ++ [13, 10])) = _
    unfold splitLinesAux
    dsimp only
    have hsplit : a :: (l2 ++ [13, 10]) = ((a :: l2) ++ [13]) ++ 10 :: [] := by simp
    rw [hsplit, readLine_append h10b]
    dsimp only
    rw [stripSuffix1_concat, stripSuffix1_concat, splitLinesAux_nil]

theorem startsWithB_prefix (p : List Nat) (r : List Nat) :
    startsWithB p (p ++ r) = true := by
  induction p with
  | nil => rfl
  | cons b bs ih => simp [startsWithB, ih]

theorem dropToColon_append {l : List Nat} (h : 58 ∉ l) (r : List Nat) :
    dropToColon (l ++ 58 :: r) = some r := by
  induction l with
  | nil => simp [dropToColon]
  | cons b bs ih =>
    have hb : ¬(b = 58) := fun e => h (by simp [e])
    simp only [List.cons_append, dropToColon, hb, if_false]
    exact ih (fun e => h (by simp [e]))

theorem takeToColon_none {l : List Nat} (h : 58 ∉ l) : takeToColon l = l := by
  induction l with
  | nil => rfl
  | cons b bs ih =>
    have hb : ¬(b = 58) := fun e => h (by simp [e])
    simp only [takeToColon, hb, if_false]
    rw [ih (fun e => h (by simp [e]))]

theorem trimBytes_space_digits {dec : List Nat} (hne : dec ≠ [])
    (hdig : ∀ b ∈ dec, 48 ≤ b ∧ b ≤ 57) : trimBytes (32 :: dec) = dec := by
  unfold trimBytes
  obtain ⟨d, ds, rfl⟩ : ∃ d ds, dec = d :: ds := by
    cases dec with
    | nil => exact absurd rfl hne
    | cons d ds => exact ⟨d, ds, rfl⟩
  have hd := hdig d (by simp)
  have hdF : isWsB d = false := by
    simp [isWsB]
    omega
  obtain ⟨e, es, hrev⟩ : ∃ e es, (d :: ds).reverse = e :: es := by
    cases hr : (d :: ds).reverse with
    | nil =>
      exfalso
      have := congrArg List.length hr
      simp at this
    | cons e es => exact ⟨e, es, rfl⟩
  have he : e ∈ d :: ds := by
    rw [← List.mem_reverse, hrev]
    simp
  have heF : isWsB e = false := by
    have := hdig e he
    simp [isWsB]
    omega
  rw [List.dropWhile_cons]
  simp only [show isWsB 32 = true from rfl, if_true]
  rw [List.dropWhile_cons]
  simp only [hdF, Bool.false_eq_true, if_false]
  rw [hrev, List.dropWhile_cons]
  simp only [heF, Bool.false_eq_true, if_false]
  rw [← hrev, List.reverse_reverse]

theorem parseContentLength_single {n : Nat} (h : n < 2 ^ 64) :
    parseContentLength ((asciiB ("Content-Length: ")
      ++ (natToDecChars n).map Char.toNat) ++ [13, 10]) = some n := by
  have hdig : ∀ b ∈ (natToDecChars n).map Char.toNat, 48 ≤ b ∧ b ≤ 57 := by
    intro b hb
    simp at hb
    obtain ⟨c, hc, rfl⟩ := hb
    exact natToDecChars_digits n c hc
  have hdne : (natToDecChars n).map Char.toNat ≠ [] := by
    simpa using natToDecChars_ne_nil n
  have hfix10 : (10 : Nat) ∉ asciiB ("Content-Length: ") := by decide
  have h10 : 10 ∉ asciiB ("Content-Length: ") ++ (natToDecChars n).map Char.toNat := by
    intro hm
    rcases List.mem_append.mp hm with hm | hm
    · exact hfix10 hm
    · have := hdig 10 hm
      omega
  unfold parseContentLength
  rw [splitLines_single _ h10]
  have hsw : startsWithB (asciiB ("Content-Length:"))
      (asciiB ("Content-Length: ") ++ (natToDecChars n).map Char.toNat) = true := by
    have hpre : asciiB ("Content-Length: ") ++ (natToDecChars n).map Char.toNat
        = asciiB ("Content-Length:") ++ (32 :: (natToDecChars n).map Char.toNat) := by
      rw [show asciiB ("Content-Length: ")
          = asciiB ("Content-Length:") ++ [32] from by decide]
      simp
    rw [hpre]
    exact startsWithB_prefix _ _
  rw [List.find?_cons_of_pos _ hsw]
  dsimp only
  have hsplitColon : asciiB ("Content-Length: ") ++ (natToDecChars n).map Char.toNat
      = asciiB ("Content-Length") ++ 58 :: (32 :: (natToDecChars n).map Char.toNat) := by
    rw [show asciiB ("Content-Length: ")
        = asciiB ("Content-Length") ++ [58, 32] from by decide]
    simp
  have hfix58 : (58 : Nat) ∉ asciiB ("Content-Length") := by decide
  rw [hsplitColon, dropToColon_append hfix58]
  dsimp only
  have h58 : (58 : Nat) ∉ 32 :: (natToDecChars n).map Char.toNat := by
    intro hm
    rcases List.mem_cons.mp hm with hm | hm
    · omega
    · have := hdig 58 hm
      omega
  rw [takeToColon_none h58, trimBytes_space_digits hdne hdig, parseUsize_dec h]

theorem decodeOneFrame_send (j : Json) (extra : List Nat) (fuel : Nat)
    (hlen : (utf8Encode (Json.serialize j)).length < 2 ^ 64) :
    decodeOneFrame (fuel + 2) (send_message j ++ extra)
      = some (.ok (j, extra)) := by
  have hdig : ∀ b ∈ (natToDecChars (utf8Encode (Json.serialize j)).length).map Char.toNat,
      48 ≤ b ∧ b ≤ 57 := by
    intro b hb
    simp at hb
    obtain ⟨c, hc, rfl⟩ := hb
    exact natToDecChars_digits _ c hc
  have hfix10 : (10 : Nat) ∉ asciiB ("Content-Length: ") := by decide
  have h10 : 10 ∉ asciiB ("Content-Length: ")
      ++ (natToDecChars (utf8Encode (Json.serialize j)).length).map Char.toNat := by
    intro hm
    rcases List.mem_append.mp hm with hm | hm
    · exact hfix10 hm
    · have := hdig 10 hm
      omega
  have hne : asciiB ("Content-Length: ")
      ++ (natToDecChars (utf8Encode (Json.serialize j)).length).map Char.toNat ≠ [] := by
    intro he
    have h2 := List.append_eq_nil.mp he
    have : asciiB ("Content-Length: ") ≠ [] := by decide
    exact this h2.1
  rw [send_message_eq]
  have hform : (((asciiB ("Content-Length: ")
      ++ (natToDecChars (utf8Encode (Json.serialize j)).length).map Char.toNat)
      ++ [13, 10, 13, 10]) ++ utf8Encode (Json.serialize j)) ++ extra
      = ((asciiB ("Content-Length: ")
        ++ (natToDecChars (utf8Encode (Json.serialize j)).length).map Char.toNat)
        ++ [13, 10, 13, 10]) ++ (utf8Encode (Json.serialize j) ++ extra) := by
    simp
  unfold decodeOneFrame
  rw [hform, readHeaderAux_encoded h10 hne _ fuel]
  dsimp only
  rw [parseContentLength_single hlen]
  dsimp only
  rw [if_pos (by simp)]
  rw [List.take_left, List.drop_left, from_slice_serialize]

/-- The declared `Content-Length` of an encoded frame is exactly the
byte length of its serialized payload. -/
theorem declaredContentLength_send (j : Json) (extra : List Nat) (fuel : Nat)
    (hlen : (utf8Encode (Json.serialize j)).length < 2 ^ 64) :
    declaredContentLength (fuel + 2) (send_message j ++ extra)
      = some (utf8Encode (Json.serialize j)).length := by
  have hdig : ∀ b ∈ (natToDecChars (utf8Encode (Json.serialize j)).length).map Char.toNat,
      48 ≤ b ∧ b ≤ 57 := by
    intro b hb
    simp at hb
    obtain ⟨c, hc, rfl⟩ := hb
    exact natToDecChars_digits _ c hc
  have hfix10 : (10 : Nat) ∉ asciiB ("Content-Length: ") := by decide
  have h10 : 10 ∉ asciiB ("Content-Length: ")
      ++ (natToDecChars (utf8Encode (Json.serialize j)).length).map Char.toNat := by
    intro hm
    rcases List.mem_append.mp hm with hm | hm
    · exact hfix10 hm
    · have := hdig 10 hm
      omega
  have hne : asciiB ("Content-Length: ")
      ++ (natToDecChars (utf8Encode (Json.serialize j)).length).map Char.toNat ≠ [] := by
    intro he
    have h2 := List.append_eq_nil.mp he
    have : asciiB ("Content-Length: ") ≠ [] := by decide
    exact this h2.1
  rw [send_message_eq]
  have hform : (((asciiB ("Content-Length: ")
      ++ (natToDecChars (utf8Encode (Json.serialize j)).length).map Char.toNat)
      ++ [13, 10, 13, 10]) ++ utf8Encode (Json.serialize j)) ++ extra
      = ((asciiB ("Content-Length: ")
        ++ (natToDecChars (utf8Encode (Json.serialize j)).length).map Char.toNat)
        ++ [13, 10, 13, 10]) ++ (utf8Encode (Json.serialize j) ++ extra) := by
    simp
  unfold declaredContentLength
  rw [hform, readHeaderAux_encoded h10 hne _ fuel]
  dsimp only
  rw [parseContentLength_single hlen]

theorem readHeaderAux_eof : ∀ fuel, readHeaderAux fuel [] = none := by
  intro fuel
  induction fuel with
  | zero => rfl
  | succ f ih =>
    unfold readHeaderAux
    simp [readLine, ih]

theorem decodeOneFrame_eof (fuel : Nat) : decodeOneFrame fuel [] = none := by
  unfold decodeOneFrame
  rw [readHeaderAux_eof]

theorem read_response_eof_aux : ∀ fuel expectedId,
    read_response fuel expectedId [] = none := by
  intro fuel expectedId
  cases fuel with
  | zero => rfl
  | succ f =>
    unfold read_response
    rw [decodeOneFrame_eof]

/-- One unfolding of the `read_response` loop. -/
theorem read_response_succ (fuel expectedId : Nat) (input : List Nat) :
    read_response (fuel + 1) expectedId input
      = match decodeOneFrame (fuel + 1) input with
        | none => none
        | some (.error e) => some (.error e)
        | some (.ok (message, rest)) =>
          if message.msgId = some expectedId then some (.ok (message, rest))
          else read_response fuel expectedId rest := rfl

/-- `read_response` on one encoded frame: return it if the id matches,
otherwise consume it and continue on the remaining bytes. -/
theorem read_response_step (j : Json) (extra : List Nat) (expectedId : Nat)
    (f : Nat) (hf : 1 ≤ f)
    (hlen : (utf8Encode (Json.serialize j)).length < 2 ^ 64) :
    read_response (f + 1) expectedId (send_message j ++ extra)
      = if j.msgId = some expectedId then some (.ok (j, extra))
        else read_response f expectedId extra := by
  obtain ⟨f2, rfl⟩ : ∃ f2, f = f2 + 1 := ⟨f - 1, by omega⟩
  rw [read_response_succ]
  have hd := decodeOneFrame_send j extra f2 hlen
  rw [show f2 + 2 = f2 + 1 + 1 from rfl] at hd
  rw [hd]

/-- `read_response` on a frame sequence returns exactly the first frame
whose id matches, with every earlier frame consumed. -/
theorem read_response_first_match (expectedId : Nat) :
    ∀ (pre : List Json) (target : Json) (post : List Json) (fuel : Nat),
      (∀ fr ∈ pre, fr.msgId ≠ some expectedId) →
      (∀ fr ∈ pre, (utf8Encode (Json.serialize fr)).length < 2 ^ 64) →
      (utf8Encode (Json.serialize target)).length < 2 ^ 64 →
      target.msgId = some expectedId →
      pre.length + 2 ≤ fuel →
      read_response fuel expectedId (encodeFrames (pre ++ target :: post))
        = some (.ok (target, encodeFrames post)) := by
  intro pre
  induction pre with
  | nil =>
    intro target post fuel _ _ hlt ht hfuel
    obtain ⟨f2, rfl⟩ : ∃ f2, fuel = f2 + 1 + 1 := ⟨fuel - 2, by omega⟩
    rw [List.nil_append,
      show encodeFrames (target :: post)
        = send_message target ++ encodeFrames post from rfl]
    rw [read_response_step target _ expectedId (f2 + 1) (by omega) hlt, if_pos ht]
  | cons p pre2 ih =>
    intro target post fuel hpre hplen hlt ht hfuel
    have hlen2 : pre2.length + 2 ≤ fuel - 1 := by
      simp at hfuel
      omega
    obtain ⟨f2, rfl⟩ : ∃ f2, fuel = f2 + 1 := ⟨fuel - 1, by omega⟩
    rw [show encodeFrames ((p :: pre2) ++ target :: post)
        = send_message p ++ encodeFrames (pre2 ++ target :: post) from rfl]
    rw [read_response_step p _ expectedId f2 (by omega) (hplen p (by simp))]
    rw [if_neg (hpre p (by simp))]
    exact ih target post f2 (fun fr hm => hpre fr (by simp [hm]))
      (fun fr hm => hplen fr (by simp [hm])) hlt ht (by omega)

/-! ## Session lemmas -/

theorem drawsState_requestId (inp : List Nat) :
    ∀ k, (drawsState (freshClient inp) k).requestId = (1 + k) % 2 ^ 64 := by
  have h64 : (2 : Nat) ^ 64 = 18446744073709551616 := by norm_num
  intro k
  induction k with
  | zero =>
    show (1 : Nat) = (1 + 0) % 2 ^ 64
    rw [h64]
  | succ k ih =>
    show ((drawsState (freshClient inp) k).requestId + 1) % 2 ^ 64 = _
    rw [ih, h64]
    omega

theorem drawnId_formula (inp : List Nat) (k : Nat) :
    drawnId (freshClient inp) k = (1 + k) % 2 ^ 64 :=
  drawsState_requestId inp k

/-- Whatever `send_request` returns, the state records that the request
was attempted (the method is appended to the attempt log exactly once),
before anything can fail. -/
theorem send_request_attempts (fuel : Nat) (method : List Char) (params : Json)
    (st : ClientState) (r : Except String Json) (st1 : ClientState)
    (h : send_request fuel method params st = some (r, st1)) :
    st1.attempts = st.attempts ++ [method] := by
  unfold send_request next_id sendMessageSt at h
  dsimp only at h
  by_cases hw : st.writerOpen = true
  · rw [if_pos hw] at h
    dsimp only at h
    cases hr : read_response fuel st.requestId st.input with
    | none =>
      rw [hr] at h
      exact absurd h (by simp)
    | some res =>
      rw [hr] at h
      cases res with
      | error e =>
        dsimp only at h
        simp only [Option.some.injEq, Prod.mk.injEq] at h
        rw [← h.2]
      | ok pr =>
        dsimp only at h
        cases hge : pr.1.get (("error").data) with
        | some err =>
          rw [hge] at h
          dsimp only at h
          simp only [Option.some.injEq, Prod.mk.injEq] at h
          rw [← h.2]
        | none =>
          rw [hge] at h
          dsimp only at h
          cases hgr : pr.1.get (("result").data) with
          | some result =>
            rw [hgr] at h
            dsimp only at h
            simp only [Option.some.injEq, Prod.mk.injEq] at h
            rw [← h.2]
          | none =>
            rw [hgr] at h
            dsimp only at h
            simp only [Option.some.injEq, Prod.mk.injEq] at h
            rw [← h.2]
  · rw [if_neg hw] at h
    dsimp only at h
    simp only [Option.some.injEq, Prod.mk.injEq] at h
    rw [← h.2]

theorem send_notification_attempts (method : List Char) (params : Json)
    (st : ClientState) :
    (send_notification method params st).2.attempts = st.attempts ++ [method] := by
  unfold send_notification sendMessageSt
  dsimp only
  by_cases hw : st.writerOpen = true
  · rw [if_pos hw]
  · rw [if_neg hw]

theorem processKill_attempts (st : ClientState) :
    (processKill st).2.attempts = st.attempts ++ [("kill").data] := by
  unfold processKill
  dsimp only
  by_cases hp : st.processAlive = true
  · rw [if_pos hp]
  · rw [if_neg hp]

/-! ## Readiness-poller lemmas -/

theorem wait_for_ready_aux_success (probe : Nat → ProbeResult)
    (elapsedNs : Nat → Nat) (maxNs k : Nat)
    (hk : isReadyResult (probe k) = true)
    (hbefore : ∀ j < k, isReadyResult (probe j) = false)
    (hel : ∀ j < k, elapsedNs j ≤ maxNs) :
    ∀ fuel i, i ≤ k → k < i + fuel →
      wait_for_ready_aux probe elapsedNs maxNs fuel i = some (.ok ()) := by
  intro fuel
  induction fuel with
  | zero =>
    intro i h1 h2
    omega
  | succ f ih =>
    intro i h1 h2
    unfold wait_for_ready_aux
    by_cases hik : i = k
    · subst hik
      rw [if_pos hk]
    · have hlt : i < k := by omega
      rw [if_neg (by rw [hbefore i hlt]; simp)]
      rw [if_neg (by have := hel i hlt; omega)]
      exact ih (i + 1) (by omega) (by omega)

theorem wait_for_ready_aux_running (probe : Nat → ProbeResult)
    (elapsedNs : Nat → Nat) (maxNs K : Nat)
    (hnever : ∀ j, isReadyResult (probe j) = false)
    (hel : ∀ j < K, elapsedNs j ≤ maxNs) :
    ∀ fuel i, i + fuel ≤ K →
      wait_for_ready_aux probe elapsedNs maxNs fuel i = none := by
  intro fuel
  induction fuel with
  | zero => intro i _; rfl
  | succ f ih =>
    intro i hi
    unfold wait_for_ready_aux
    rw [if_neg (by rw [hnever i]; simp)]
    rw [if_neg (by have := hel i (by omega); omega)]
    exact ih (i + 1) (by omega)

theorem wait_for_ready_aux_timeout (probe : Nat → ProbeResult)
    (elapsedNs : Nat → Nat) (maxNs K : Nat)
    (hnever : ∀ j, isReadyResult (probe j) = false)
    (hel : ∀ j < K, elapsedNs j ≤ maxNs)
    (hK : maxNs < elapsedNs K) :
    ∀ fuel i, i ≤ K → K < i + fuel →
      wait_for_ready_aux probe elapsedNs maxNs fuel i
        = some (.error "Timeout waiting for rust-analyzer to be ready") := by
  intro fuel
  induction fuel with
  | zero =>
    intro i h1 h2
    omega
  | succ f ih =>
    intro i h1 h2
    unfold wait_for_ready_aux
    rw [if_neg (by rw [hnever i]; simp)]
    by_cases hik : i = K
    · subst hik
      rw [if_pos hK]
    · have hlt : i < K := by omega
      rw [if_neg (by have := hel i hlt; omega)]
      exact ih (i + 1) (by omega) (by omega)

theorem send_request_closed (fuel : Nat) (method : List Char) (params : Json)
    (st : ClientState) (hw : st.writerOpen = false) :
    send_request fuel method params st
      = some (.error "Broken pipe",
          { st with
            attempts := st.attempts ++ [method]
            requestId := (st.requestId + 1) % 2 ^ 64 }) := by
  unfold send_request next_id sendMessageSt
  dsimp only
  rw [if_neg (by rw [hw]; simp)]

/-! ## Claim theorems -/

/-- C1 (code bug in `read_response`, lsp_client.rs:242-249): the claim
says that when the server's output stream closes or the process exits
before the matching response arrives, the call fails with a
connection-closed error rather than hanging. The code does the
opposite: at end-of-stream `read_line` returns `Ok(0)` with an empty
line, the empty line never equals `"\r\n"`, and the header loop spins
forever. Formally: on an exhausted stream the loop is still running
after every amount of fuel — it neither returns a value nor an error —
and so is any `send_request` issued against such a stream. -/
theorem c1_read_response_diverges_on_closed_stream :
    (∀ fuel expectedId, read_response fuel expectedId [] = none) ∧
    (∀ fuel method params,
      send_request fuel method params (freshClient []) = none) := by
  refine ⟨read_response_eof_aux, ?_⟩
  intro fuel method params
  unfold send_request next_id sendMessageSt freshClient
  dsimp only
  rw [if_pos rfl]
  dsimp only
  rw [read_response_eof_aux]

/-- C2: `read_response` returns exactly the first frame whose `id`
equals the awaited id; every earlier frame — notification (no id) or
response for a different id — is consumed by the loop and never handed
to the waiting caller (the returned stream position is past them). -/
theorem c2_read_response_first_matching_id (expectedId : Nat)
    (pre : List Json) (target : Json) (post : List Json) (fuel : Nat)
    (hpre : ∀ fr ∈ pre, fr.msgId ≠ some expectedId)
    (hplen : ∀ fr ∈ pre, (utf8Encode (Json.serialize fr)).length < 2 ^ 64)
    (hlt : (utf8Encode (Json.serialize target)).length < 2 ^ 64)
    (ht : target.msgId = some expectedId)
    (hfuel : pre.length + 2 ≤ fuel) :
    read_response fuel expectedId (encodeFrames (pre ++ target :: post))
      = some (.ok (target, encodeFrames post)) :=
  read_response_first_match expectedId pre target post fuel hpre hplen hlt ht hfuel

/-- C2 witness: for the stream Notification, Response id 2,
Notification, Response id 1, a caller awaiting id 1 receives exactly
the Response with id 1 and the whole stream is consumed. -/
theorem c2_witness :
    (∀ fr ∈ [notifFrame1, respFrame 2, notifFrame1], Json.msgId fr ≠ some 1) ∧
    (∀ fr ∈ [notifFrame1, respFrame 2, notifFrame1],
      (utf8Encode (Json.serialize fr)).length < 2 ^ 64) ∧
    (utf8Encode (Json.serialize (respFrame 1))).length < 2 ^ 64 ∧
    (respFrame 1).msgId = some 1 ∧
    ([notifFrame1, respFrame 2, notifFrame1] : List Json).length + 2 ≤ 5 ∧
    read_response 5 1 (encodeFrames
        ([notifFrame1, respFrame 2, notifFrame1] ++ respFrame 1 :: []))
      = some (.ok (respFrame 1, encodeFrames [])) :=
  ⟨by decide, by decide, by decide, by decide, by decide,
    c2_read_response_first_matching_id 1 [notifFrame1, respFrame 2, notifFrame1]
      (respFrame 1) [] 5 (by decide) (by decide) (by decide) (by decide) (by decide)⟩

/-- C3: encoding a JSON payload to the wire format and decoding one
frame from the resulting byte stream yields the payload back unchanged
(any following bytes untouched), and the declared `Content-Length` is
the byte length of the serialized payload. The only proviso is that the
byte length fits in a `usize`, as it always does for a materialized
buffer. -/
theorem c3_frame_roundtrip (j : Json) (extra : List Nat) (fuel : Nat)
    (hlen : (utf8Encode (Json.serialize j)).length < 2 ^ 64) :
    decodeOneFrame (fuel + 2) (send_message j ++ extra)
      = some (.ok (j, extra)) ∧
    declaredContentLength (fuel + 2) (send_message j ++ extra)
      = some (utf8Encode (Json.serialize j)).length :=
  ⟨decodeOneFrame_send j extra fuel hlen,
    declaredContentLength_send j extra fuel hlen⟩

/-- C3 witness: a payload with a two-byte UTF-8 character round-trips,
and the declared length is its byte count — which differs from its
character count. -/
theorem c3_witness :
    (utf8Encode (Json.serialize eAcuteFrame)).length < 2 ^ 64 ∧
    decodeOneFrame (0 + 2) (send_message eAcuteFrame ++ [])
      = some (.ok (eAcuteFrame, [])) ∧
    declaredContentLength (0 + 2) (send_message eAcuteFrame ++ [])
      = some (utf8Encode (Json.serialize eAcuteFrame)).length ∧
    (utf8Encode (Json.serialize eAcuteFrame)).length
      ≠ (Json.serialize eAcuteFrame).length :=
  ⟨by decide, (c3_frame_roundtrip eAcuteFrame [] 0 (by decide)).1,
    (c3_frame_roundtrip eAcuteFrame [] 0 (by decide)).2, by decide⟩

/-- C4 counterexample: the id counter is a `u64` that wraps
(`fetch_add` wraps on overflow), so the id drawn for the `2^64`-th
request equals the id drawn for the first request — an id is reused
between two distinct draws, so "every sequence of id draws yields
strictly increasing, pairwise-unique values; no id is ever reused" is
false as stated. -/
theorem c4_counterexample :
    drawnId (freshClient []) 0 = drawnId (freshClient []) (2 ^ 64) ∧
    (0 : Nat) ≠ 2 ^ 64 := by
  constructor
  · rw [drawnId_formula, drawnId_formula]
    have h64 : (2 : Nat) ^ 64 = 18446744073709551616 := by norm_num
    rw [h64]
  · norm_num

/-- C4 amended: the id generator starts at 1 and the ids drawn are
strictly increasing (hence pairwise unique, none reused) for all draws
before the 64-bit counter wraps, i.e. among the first `2^64 - 1`
draws. -/
theorem c4_ids_strictly_increasing_before_wrap (inp : List Nat) :
    drawnId (freshClient inp) 0 = 1 ∧
    ∀ i j, i < j → j < 2 ^ 64 - 1 →
      drawnId (freshClient inp) i < drawnId (freshClient inp) j := by
  have h64 : (2 : Nat) ^ 64 = 18446744073709551616 := by norm_num
  constructor
  · rw [drawnId_formula, h64]
  · intro i j hij hj
    rw [drawnId_formula, drawnId_formula, h64]
    rw [h64] at hj
    rw [Nat.mod_eq_of_lt (by omega), Nat.mod_eq_of_lt (by omega)]
    omega

/-- C4 witness: the first draw is 1 and the first two draws increase. -/
theorem c4_witness :
    drawnId (freshClient []) 0 = 1 ∧
    ((0 : Nat) < 1 ∧ (1 : Nat) < 2 ^ 64 - 1 ∧
      drawnId (freshClient []) 0 < drawnId (freshClient []) 1) :=
  ⟨(c4_ids_strictly_increasing_before_wrap []).1,
    by decide, by norm_num,
    (c4_ids_strictly_increasing_before_wrap []).2 0 1 (by decide) (by norm_num)⟩

/-- C5: when the matched response carries an `error` member,
`send_request` resolves as an error and never as a success — whether or
not a `result` member is also present (the `error` check comes first
and bails out unconditionally). -/
theorem c5_error_field_resolves_as_error (fuel : Nat) (method : List Char)
    (params : Json) (st : ClientState) (response : Json) (restInput : List Nat)
    (hw : st.writerOpen = true)
    (hr : read_response fuel st.requestId st.input
      = some (.ok (response, restInput)))
    (herr : (response.get (("error").data)).isSome = true) :
    ∃ e st2, send_request fuel method params st = some (.error e, st2) := by
  unfold send_request next_id sendMessageSt
  dsimp only
  rw [if_pos hw]
  dsimp only
  rw [hr]
  dsimp only
  obtain ⟨err, herr2⟩ := Option.isSome_iff_exists.mp herr
  rw [herr2]
  exact ⟨_, _, rfl⟩

/-- C5 witness: a response for the awaited id carrying both `error` and
`result` members resolves the call as an error. -/
theorem c5_witness :
    (freshClient (send_message respErrFrame)).writerOpen = true ∧
    read_response 2 (freshClient (send_message respErrFrame)).requestId
        (freshClient (send_message respErrFrame)).input
      = some (.ok (respErrFrame, [])) ∧
    (respErrFrame.get (("error").data)).isSome = true ∧
    ∃ e st2, send_request 2 (("m").data) Json.null
        (freshClient (send_message respErrFrame))
      = some (.error e, st2) :=
  ⟨rfl, rfl, rfl,
    c5_error_field_resolves_as_error 2 (("m").data) Json.null
      (freshClient (send_message respErrFrame)) respErrFrame [] rfl rfl rfl⟩

/-- C6: `initialize` sends the `initialize` request (its params
forwarded verbatim), awaits the matching response, and then — after the
response is consumed from the stream and before returning success —
sends exactly one `initialized` notification, a frame carrying no id
for which no response is awaited; the payload of the response's
`result` member is returned to the caller as received. -/
theorem c6_initialize_then_initialized (fuel : Nat) (initParams : Json)
    (st : ClientState) (response result : Json) (restInput : List Nat)
    (hw : st.writerOpen = true)
    (hr : read_response fuel st.requestId st.input
      = some (.ok (response, restInput)))
    (herr : response.get (("error").data) = none)
    (hres : response.get (("result").data) = some result) :
    ∃ st2, initSession fuel initParams st = some (.ok result, st2) ∧
      st2.sent = st.sent ++
        [requestFrame st.requestId (("initialize").data) initParams,
         notificationFrame (("initialized").data) (Json.obj [])] ∧
      st2.input = restInput ∧
      (notificationFrame (("initialized").data) (Json.obj [])).msgId = none ∧
      (requestFrame st.requestId (("initialize").data) initParams).get
        (("params").data) = some initParams := by
  unfold initSession send_request send_notification next_id sendMessageSt
  dsimp only
  rw [if_pos hw]
  dsimp only
  rw [hr]
  dsimp only
  rw [herr]
  dsimp only
  rw [hres]
  dsimp only
  rw [if_pos hw]
  dsimp only
  refine ⟨_, rfl, ?_, rfl, rfl, rfl⟩
  simp

/-- C6 witness: against a fake server that answers `initialize` with
`id 1` and `result.capabilities` empty, the client returns that result
and the write log shows the request followed by the id-less
`initialized` notification. -/
theorem c6_witness :
    (freshClient (send_message initRespFrame)).writerOpen = true ∧
    read_response 2 (freshClient (send_message initRespFrame)).requestId
        (freshClient (send_message initRespFrame)).input
      = some (.ok (initRespFrame, [])) ∧
    initRespFrame.get (("error").data) = none ∧
    initRespFrame.get (("result").data)
      = some (Json.obj [(("capabilities").data, Json.obj [])]) ∧
    ∃ st2, initSession 2 (Json.obj [])
        (freshClient (send_message initRespFrame))
      = some (.ok (Json.obj [(("capabilities").data, Json.obj [])]), st2) ∧
      st2.sent = (freshClient (send_message initRespFrame)).sent ++
        [requestFrame (freshClient (send_message initRespFrame)).requestId
          (("initialize").data) (Json.obj []),
         notificationFrame (("initialized").data) (Json.obj [])] ∧
      st2.input = [] ∧
      (notificationFrame (("initialized").data) (Json.obj [])).msgId = none ∧
      (requestFrame (freshClient (send_message initRespFrame)).requestId
        (("initialize").data) (Json.obj [])).get (("params").data)
        = some (Json.obj []) :=
  ⟨rfl, rfl, rfl, rfl,
    c6_initialize_then_initialized 2 (Json.obj [])
      (freshClient (send_message initRespFrame)) initRespFrame
      (Json.obj [(("capabilities").data, Json.obj [])]) [] rfl rfl rfl rfl⟩

/-- C7: `wait_for_ready` returns success on the first probe whose
document-symbol result is a non-empty collection, in either the flat or
the nested shape; every earlier probe outcome — an error, a missing
list, or a valid but empty collection (which `isReadyResult` classifies
as not ready) — is passed over and polling continues. -/
theorem c7_wait_ready_first_nonempty (probe : Nat → ProbeResult)
    (elapsedNs : Nat → Nat) (maxWaitSecs k fuel : Nat)
    (hk : isReadyResult (probe k) = true)
    (hbefore : ∀ j < k, isReadyResult (probe j) = false)
    (hel : ∀ j < k, elapsedNs j ≤ 1000000000 * maxWaitSecs)
    (hfuel : k < fuel) :
    wait_for_ready probe elapsedNs maxWaitSecs fuel = some (.ok ()) ∧
    isReadyResult (ProbeResult.resp (DocumentSymbolResponse.flat [])) = false ∧
    isReadyResult (ProbeResult.resp (DocumentSymbolResponse.nested [])) = false :=
  ⟨wait_for_ready_aux_success probe elapsedNs _ k hk hbefore hel fuel 0
      (by omega) (by omega), rfl, rfl⟩

/-- C7 witness: the first probe returns a valid but empty flat list and
polling continues; the second returns a non-empty nested list and the
call succeeds. -/
theorem c7_witness :
    isReadyResult (probeFlatThenNested 1) = true ∧
    (∀ j < 1, isReadyResult (probeFlatThenNested j) = false) ∧
    (∀ j < 1, clockTenth j ≤ 1000000000 * 10) ∧
    (1 : Nat) < 3 ∧
    wait_for_ready probeFlatThenNested clockTenth 10 3 = some (.ok ()) :=
  ⟨by decide, by decide, by decide, by decide,
    (c7_wait_ready_first_nonempty probeFlatThenNested clockTenth 10 1 3
      (by decide) (by decide) (by decide) (by decide)).1⟩

/-- C8: when every probe yields an error or an empty (or missing)
symbol list, `wait_for_ready` is still running through every iteration
whose deadline check sees elapsed time within the budget, and it
returns — with the timeout error, never a probe error — exactly on the
first iteration whose deadline check sees the budget exceeded. -/
theorem c8_wait_ready_timeout_only_after_deadline (probe : Nat → ProbeResult)
    (elapsedNs : Nat → Nat) (maxWaitSecs K : Nat)
    (hnever : ∀ j, isReadyResult (probe j) = false)
    (hel : ∀ j < K, elapsedNs j ≤ 1000000000 * maxWaitSecs)
    (hK : 1000000000 * maxWaitSecs < elapsedNs K) :
    (∀ fuel, fuel ≤ K →
      wait_for_ready probe elapsedNs maxWaitSecs fuel = none) ∧
    (∀ fuel, K < fuel →
      wait_for_ready probe elapsedNs maxWaitSecs fuel
        = some (.error "Timeout waiting for rust-analyzer to be ready")) := by
  constructor
  · intro fuel hfuel
    exact wait_for_ready_aux_running probe elapsedNs _ K hnever hel fuel 0
      (by omega)
  · intro fuel hfuel
    exact wait_for_ready_aux_timeout probe elapsedNs _ K hnever hel hK fuel 0
      (by omega) (by omega)

/-- C8 witness: probes always error, the clock passes the 1-second
budget at the third iteration; with fuel for two iterations the loop is
still running, with fuel for three it returns the timeout error. -/
theorem c8_witness :
    (∀ j, isReadyResult (probeAlwaysErr j) = false) ∧
    (∀ j < 2, clockSixTenths j ≤ 1000000000 * 1) ∧
    1000000000 * 1 < clockSixTenths 2 ∧
    wait_for_ready probeAlwaysErr clockSixTenths 1 2 = none ∧
    wait_for_ready probeAlwaysErr clockSixTenths 1 3
      = some (.error "Timeout waiting for rust-analyzer to be ready") :=
  ⟨fun j => rfl, by decide, by decide,
    (c8_wait_ready_timeout_only_after_deadline probeAlwaysErr clockSixTenths 1 2
      (fun j => rfl) (by decide) (by decide)).1 2 (by decide),
    (c8_wait_ready_timeout_only_after_deadline probeAlwaysErr clockSixTenths 1 2
      (fun j => rfl) (by decide) (by decide)).2 3 (by decide)⟩

/-- C9: the `Drop` cleanup never panics and never propagates an error:
its return has no error channel, and whenever it completes, every
failure of the best-effort shutdown request, exit notification and
process kill was swallowed, all three having been attempted in order.
In particular, dropping after an explicit `shutdown` (child reaped,
stdin closed, so every operation fails) always completes this way. -/
theorem c9_drop_cleanup_swallows_failures :
    (∀ fuel st st2, dropClient fuel st = some st2 →
      st2.attempts = st.attempts
        ++ [("shutdown").data, ("exit").data, ("kill").data]) ∧
    (∀ fuel st, st.writerOpen = false →
      ∃ st2, dropClient fuel st = some st2 ∧
        st2.attempts = st.attempts
          ++ [("shutdown").data, ("exit").data, ("kill").data]) := by
  constructor
  · intro fuel st st2 h
    unfold dropClient at h
    cases hsr : send_request fuel (("shutdown").data) Json.null st with
    | none =>
      rw [hsr] at h
      exact absurd h (by simp)
    | some p =>
      rw [hsr] at h
      dsimp only at h
      simp only [Option.some.injEq] at h
      rw [← h, processKill_attempts, send_notification_attempts,
        send_request_attempts fuel (("shutdown").data) Json.null st p.1 p.2
          (by rw [hsr])]
      simp
  · intro fuel st hw
    refine ⟨(processKill ((send_notification (("exit").data) Json.null
        { st with
          attempts := st.attempts ++ [("shutdown").data]
          requestId := (st.requestId + 1) % 2 ^ 64 }).2)).2, ?_, ?_⟩
    · unfold dropClient
      rw [send_request_closed fuel (("shutdown").data) Json.null st hw]
    · rw [processKill_attempts, send_notification_attempts]
      dsimp only
      simp

/-- C9 witness: dropping the post-shutdown state (all pipes closed)
completes with no error and all three cleanup operations attempted. -/
theorem c9_witness :
    postShutdownState.writerOpen = false ∧
    ∃ st2, dropClient 1 postShutdownState = some st2 ∧
      st2.attempts = postShutdownState.attempts
        ++ [("shutdown").data, ("exit").data, ("kill").data] :=
  ⟨rfl, c9_drop_cleanup_swallows_failures.2 1 postShutdownState rfl⟩

/-- C10: `wait_for_ready` checks the deadline only after a probe: the
first probe is always issued (the loop body probes before comparing
`elapsed` with the budget), and if that first probe returns a non-empty
symbol collection the call succeeds for every timeout value — including
zero — and every clock, even one already past the budget. -/
theorem c10_probe_precedes_deadline_check (probe : Nat → ProbeResult)
    (elapsedNs : Nat → Nat) (maxWaitSecs fuel : Nat)
    (hfuel : 1 ≤ fuel) (h0 : isReadyResult (probe 0) = true) :
    wait_for_ready probe elapsedNs maxWaitSecs fuel = some (.ok ()) := by
  obtain ⟨f, rfl⟩ : ∃ f, fuel = f + 1 := ⟨fuel - 1, by omega⟩
  unfold wait_for_ready wait_for_ready_aux
  rw [if_pos h0]

/-- C10 witness: with a zero-second timeout and a clock already far
past it, a first probe with a non-empty flat list still succeeds. -/
theorem c10_witness :
    (1 : Nat) ≤ 1 ∧
    isReadyResult (probeReadyFlat 0) = true ∧
    wait_for_ready probeReadyFlat clockLate 0 1 = some (.ok ()) :=
  ⟨le_rfl, by decide,
    c10_probe_precedes_deadline_check probeReadyFlat clockLate 0 1
      le_rfl (by decide)⟩

end LspClient
